import Mathlib


/-!
Verification development for the domain-level DNA annealing simulator
(`nascent`): a shallow embedding, in Lean 4, of the energy model, the
event-selection and step engine of `nacent_sim/dom_anneal_sim.py`, and the
`Complex` graph / state-fingerprint machinery of `graph_sim_nx/complex.py`,
together with theorems settling the behavioural claims made about them.

Python-specific value semantics (truthiness of `None`/`0`/empty
collections, `or` returning its first truthy operand, `bool` arithmetic)
are modelled explicitly where the source relies on them.  Real-valued
quantities (energies, probabilities, weights) are modelled over `ℚ`.
-/

/-! ## Energy model (`Simulator.hybridization_energy`, dom_anneal_sim.py lines 292-382) -/

/-- Attributes of a `Domain` instance read by `hybridization_energy`.
Modelled from the spec: the `Domain` class itself lives in the (absent)
`dom_anneal_models` module; per the spec a domain has a 5′ neighbour domain
and a 3′ neighbour domain on the same strand (each possibly absent), each
neighbour possibly hybridized, and an owning complex *or none*.  The
boolean fields give the truthiness of `domain5p()` / `domain3p()` and the
result of `domain5p_is_hybridized()` / `domain3p_is_hybridized()`; the
owning complex is identified by an optional id, `none` for a free domain
(Python `None`). -/
structure DomainE where
  domain5p_exists : Bool
  domain3p_exists : Bool
  domain5p_is_hybridized : Bool
  domain3p_is_hybridized : Bool
  complexId : Option ℕ
deriving DecidableEq

/-- Source line 343-345: `N_neighbors = sum(bool(n) for n in
(domain1.domain5p(), domain2.domain3p(), domain2.domain5p() or
domain1.domain3p()))`.  The generator ranges over THREE items; the third is
the Python `or` of two neighbour lookups, so `bool` of it is the
disjunction of their truthiness. -/
def N_neighbors (d1_5p d2_3p d2_5p d1_3p : Bool) : ℕ :=
  d1_5p.toNat + d2_3p.toNat + (d2_5p || d1_3p).toNat

/-- Source line 352-353: `N_stacking = (domain1.domain5p_is_hybridized() or
domain2.domain3p_is_hybridized() + domain2.domain5p_is_hybridized() or
domain1.domain3p_is_hybridized())`.  Python binds `+` tighter than `or`,
and `or` returns its first truthy operand, so with
`a = domain1.domain5p_is_hybridized()`, `b = domain2.domain3p_is_hybridized()`,
`c = domain2.domain5p_is_hybridized()`, `d = domain1.domain3p_is_hybridized()`
this evaluates as `a or (b + c) or d`: value `True` (numerically 1) if `a`,
else the integer `b + c` if it is nonzero, else the boolean `d`. -/
def N_stacking (a b c d : Bool) : ℕ :=
  if a then 1
  else if b.toNat + c.toNat ≠ 0 then b.toNat + c.toNat
  else d.toNat

/-- Count of existing adjacent backbone neighbours on either duplex side,
one per neighbour position (0-4), as the spec's neighbour-correction
sentence defines `N_n`.  This is the spec's wording, written for comparison
with `N_neighbors` above, not the translation of the source expression. -/
def existingNeighborCount (d1_5p d2_3p d2_5p d1_3p : Bool) : ℕ :=
  d1_5p.toNat + d2_3p.toNat + d2_5p.toNat + d1_3p.toNat

/-- Count of hybridized adjacent backbone neighbours on either duplex side
(0-4), as the spec's stacking-correction sentence defines `N_s`.  This is
the spec's wording, written for comparison with `N_stacking` above, not the
translation of the source expression. -/
def hybridizedNeighborCount (a b c d : Bool) : ℕ :=
  a.toNat + b.toNat + c.toNat + d.toNat

/-- `Simulator.hybridization_energy(domain1, domain2, T)` (source lines
325-382), given the memoized nearest-neighbour table result
`(deltaH, deltaS)` for the domain pair (the table itself is an external
collaborator, out of scope).  Returns
`(deltaG, deltaH, deltaS, deltaH_corr, deltaS_corr)`.  The comparison
`domain1.Complex == domain2.Complex` on line 371 is Python `==` on the two
optional complexes; in particular `None == None` is `True`. -/
def hybridization_energy (dHdS : ℚ × ℚ) (domain1 domain2 : DomainE) (T : ℚ) :
    ℚ × ℚ × ℚ × ℚ × ℚ :=
  let nN : ℕ := N_neighbors domain1.domain5p_exists domain2.domain3p_exists
      domain2.domain5p_exists domain1.domain3p_exists
  let deltaH_corr : ℚ := -3 * nN
  let deltaS_corr : ℚ := -10 * nN
  let nS : ℕ := N_stacking domain1.domain5p_is_hybridized domain2.domain3p_is_hybridized
      domain2.domain5p_is_hybridized domain1.domain3p_is_hybridized
  let deltaH_corr : ℚ := deltaH_corr + -7 * nS
  let deltaS_corr : ℚ := deltaS_corr + -20 * nS
  let deltaS_corr : ℚ :=
    if domain1.complexId = domain2.complexId then deltaS_corr + 4 else deltaS_corr
  let deltaH : ℚ := dHdS.1 + deltaH_corr
  let deltaS : ℚ := dHdS.2 + deltaS_corr
  let deltaG : ℚ := deltaH * 1000 - T * deltaS
  (deltaG, deltaH, deltaS, deltaH_corr, deltaS_corr)

/-- A domain instance whose 5′ and 3′ neighbours both exist and are both
hybridized, sitting in complex `cid`. -/
def allNeighborsHybridized (cid : Option ℕ) : DomainE :=
  ⟨true, true, true, true, cid⟩

/-- A domain instance whose 5′ and 3′ neighbours both exist but are
unhybridized, sitting in complex `cid`. -/
def allNeighborsExist (cid : Option ℕ) : DomainE :=
  ⟨true, true, false, false, cid⟩

/-- A free domain: no neighbours on its strand, no partner anywhere nearby,
and no owning complex (`Complex` is `None`). -/
def freeDomain : DomainE := ⟨false, false, false, false, none⟩

/-! ## Step engine: oversampling melt probability (`Simulator.step`, lines 486-528) -/

/-- The probability value that `step(T)` compares against the uniform draw
(source lines 520-522): `if is_hybridized and oversampling: p_hyb = 1 -
oversampling*(1-p_hyb)`.  The guard is Python truthiness of `oversampling`
(any nonzero value), and there is no clamping of the result before the
comparison `p_hyb < random.random()`. -/
def p_used (is_hybridized : Bool) (oversampling p_hyb : ℚ) : ℚ :=
  if is_hybridized ∧ oversampling ≠ 0 then 1 - oversampling * (1 - p_hyb) else p_hyb

/-- Desired post-step state (hybridized) given the compared probability `p`
and the uniform draw `u`: the source dispatches on `p_hyb < random.random()`
(line 528), so the desired state is hybridized iff `¬ (p < u)`. -/
def dice_wants_hybridized (p u : ℚ) : Bool := decide (¬ p < u)

/-! ## Event selection: weight finalization (`select_event_domains`, lines 221-289) -/

/-- Finalization of the candidate list and weight vector before the
categorical draw (source lines 279-287): compute `domain_weights_sum`; if
it is `< 1` append the null candidate `None` with weight
`1 - domain_weights_sum`; if it is `> 1` replace every weight by
`w / domain_weights_sum`.  `np.random.choice(candidates, p=domain_weights)`
is then invoked on exactly this pair. -/
def select_prepare {α : Type} (candidates : List α) (domain_weights : List ℚ) :
    List (Option α) × List ℚ :=
  let s := domain_weights.sum
  let pair :=
    if s < 1 then (candidates.map some ++ [none], domain_weights ++ [1 - s])
    else (candidates.map some, domain_weights)
  (pair.1, if s > 1 then pair.2.map (fun w => w / s) else pair.2)

/-! ## Event selection: which pair reaches the probability computation (C10) -/

/-- The population data that `select_event_domains` reads.  Domains are
identified by instance ids; `name` gives each domain's species name,
`partner` its current hybridization partner (`Partner` attribute, `none` if
unpaired), and `domain_pairs` the complement map `Domain_pairs` checked at
construction by `assert not any(k == v for k, v in domain_pairs.items())`.
`Domains_by_name[n]` is recovered by filtering the flat domain list on
name. -/
structure TubeSel where
  domains_list : List ℕ
  name : ℕ → String
  partner : ℕ → Option ℕ
  domain_pairs : String → String

/-- `Simulator.select_event_domains` (source lines 221-289) with the two
random draws made explicit: `i` indexes `random.choice(self.Domains_list)`
and `j` indexes the categorical draw over the finalized candidate list.
`eff d1 d2` stands for `d2.effective_activity(d1, volume, oversampling)`
(modelled from the spec as an arbitrary weight function; the method lives
in the absent `dom_anneal_models` module).  Returns
`(dom1, dom2?, is_hybridized?)`; `none` overall when `i` is out of range. -/
def select_event_domains (t : TubeSel) (eff : ℕ → ℕ → ℚ) (i j : ℕ) :
    Option (ℕ × Option ℕ × Option Bool) :=
  match t.domains_list.get? i with
  | none => none
  | some dom1 =>
    match t.partner dom1 with
    | some p => some (dom1, some p, some true)
    | none =>
      let candidates :=
        (t.domains_list.filter (fun d => t.name d = t.domain_pairs (t.name dom1))).filter
          (fun d => (t.partner d).isNone)
      let pr := select_prepare candidates (candidates.map (fun d => eff d dom1))
      some (dom1, (pr.1.get? j).join, none)

/-- The assertion `step(T)` makes before computing `p_hyb` (source line
513): the two selected domains are distinct instances with distinct
species names. -/
def step_assertion (t : TubeSel) (d1 d2 : ℕ) : Prop :=
  d1 ≠ d2 ∧ t.name d1 ≠ t.name d2

/-- Concrete two-domain tube for the C10 witness: species `A` at id 0,
species `a` at id 1, nobody paired, complement map swapping the two. -/
def tubeAa : TubeSel where
  domains_list := [0, 1]
  name := fun d => if d = 0 then "A" else "a"
  partner := fun _ => none
  domain_pairs := fun n => if n = "A" then "a" else "A"

/-! ## Stats pipeline: flushing the cache (`save_stats_cache`, lines 619-635) -/

/-- The string appended to one stats output file by a single flush (source
line 634): `"\n".join(", ".join(str(i) for i in line) for line in
self.Stats_cache[statstype]) + "\n"`.  Cache entries are modelled as their
already-rendered CSV lines. -/
def stats_block (cache : List String) : String :=
  String.intercalate "\n" cache ++ "\n"

/-- `Simulator.save_stats_cache` (source lines 619-635), restricted to its
file-writing loop: for every `(statstype, outputfn)` entry of
`outputfilenames`, append `stats_block` of that type's cache to `outputfn`
and reset that cache to `[]`.  Returns the new cache map together with the
list of `(outputfn, appended-string)` effects. -/
def save_stats_cache (outputfilenames : List (String × String))
    (stats_cache : String → List String) :
    (String → List String) × List (String × String) :=
  (fun k => if outputfilenames.any (fun e => e.1 = k) then [] else stats_cache k,
   outputfilenames.map (fun e => (e.2, stats_block (stats_cache e.1))))

/-- The default stats streams and output files of the simulator. -/
def defaultStatsFiles : List (String × String) :=
  [("timesampling", "base_timesampling.csv"), ("changesampling", "base_changesampling.csv")]

/-! ## Step engine counters and stats snapshots (C4) -/

/-- The simulator state read and written by the mutation paths of `step(T)`
and by `record_stats_snapshot`.  `strands` lists each strand as its list of
domain instance ids; `partner` is the current `Partner` relation.  The
counters mirror the `Simulator` attributes of the same names. -/
structure Sim where
  strands : List (List ℕ)
  partner : ℕ → Option ℕ
  n_domains : ℕ
  n_strands : ℕ
  N_domains_hybridized : ℤ
  N_strands_hybridized : ℤ
  N_changes : ℕ

/-- Modelled from the spec: `oligo.is_hybridized()` of the absent
`dom_anneal_models` module; a strand is hybridized if any of its domains
has a partner. -/
def strand_is_hybridized (s : Sim) (doms : List ℕ) : Bool :=
  doms.any (fun d => (s.partner d).isSome)

/-- `Simulator.n_hybridized_strands` (source lines 209-211): count of
strands with at least one hybridized domain. -/
def n_hybridized_strands (s : Sim) : ℕ :=
  (s.strands.filter (fun st => strand_is_hybridized s st)).length

/-- Modelled from the spec: `d1.hybridize(d2)` of the absent
`dom_anneal_models` module sets the reciprocal `Partner` relation. -/
def set_partners (partner : ℕ → Option ℕ) (d1 d2 : ℕ) : ℕ → Option ℕ :=
  fun d => if d = d1 then some d2 else if d = d2 then some d1 else partner d

/-- The hybridize dispatch branch of `Simulator.step` (source lines
552-563): `domain1.hybridize(domain2); self.N_changes += 1;
self.N_domains_hybridized += 2`.  No other counter is touched; in
particular `N_strands_hybridized` is left unchanged. -/
def step_hybridize (s : Sim) (d1 d2 : ℕ) : Sim :=
  { s with partner := set_partners s.partner d1 d2,
           N_changes := s.N_changes + 1,
           N_domains_hybridized := s.N_domains_hybridized + 2 }

/-- The dehybridize dispatch branch of `Simulator.step` (source lines
530-541): clears the reciprocal `Partner` relation, `N_changes += 1`,
`N_domains_hybridized -= 2`; `N_strands_hybridized` again untouched. -/
def step_dehybridize (s : Sim) (d1 d2 : ℕ) : Sim :=
  { s with partner := fun d => if d = d1 ∨ d = d2 then none else s.partner d,
           N_changes := s.N_changes + 1,
           N_domains_hybridized := s.N_domains_hybridized - 2 }

/-- `Simulator.record_stats_snapshot` (source lines 638-645): the recorded
tuple `(T, N_domains_hybridized, N_domains_hybridized/N_domains,
N_strands_hybridized, N_strands_hybridized/N_strands)`. -/
def record_stats_snapshot (s : Sim) (T : ℚ) : ℚ × ℤ × ℚ × ℤ × ℚ :=
  (T, s.N_domains_hybridized, (s.N_domains_hybridized : ℚ) / s.n_domains,
   s.N_strands_hybridized, (s.N_strands_hybridized : ℚ) / s.n_strands)

/-- Two single-domain complementary strands, nothing hybridized, counters
as `Simulator.__init__` computes them for this population. -/
def sim0 : Sim :=
  { strands := [[0], [1]], partner := fun _ => none,
    n_domains := 2, n_strands := 2,
    N_domains_hybridized := 0, N_strands_hybridized := 0, N_changes := 0 }

/-! ## Complex graph model (`graph_sim_nx/complex.py`)

The `Complex` is a `networkx.MultiDiGraph` whose nodes are domain
instances (here: instance ids `ℕ`) and whose keyed edges carry one of the
three interaction kinds.  A keyed edge of a `MultiDiGraph` is unique per
`(source, target, key)`, so the edge set is a `Finset`.  Python
`frozenset` of a domain pair is modelled as `Finset ℕ`.

Three external ingredients live outside `src` and are modelled from the
spec as parameters: `pyhash` stands for Python's `hash` on the fingerprint
triple (implementation-defined, possibly seed-randomized); `dssp d` for
`d.domain_strand_specie`; and `icid_f r d` for the species-level
`in_complex_identifier` of domain `d` computed at `icid_radius = r` when
instance-based identification is off. -/

/-- The three interaction kinds used as edge keys. -/
inductive Interaction where
  | backbone
  | hybridization
  | stacking
deriving DecidableEq

/-- A strand instance as the `Complex` code sees it: a stable instance id,
a species name, and its ordered list of domain instance ids. -/
structure StrandInfo where
  sid : ℕ
  name : String
  sdoms : List ℕ
deriving DecidableEq

/-- The `Complex` state: strand set, graph node set (`self.nodes()`),
keyed edge set, the `hybridized_pairs` and `stacked_pairs` bookkeeping
sets, the icid control fields, and the four fingerprint caches
(`_state_fingerprint`, `_strands_fingerprint`,
`_hybridization_fingerprint`, `_stacking_fingerprint`; `None` when
invalidated).  Debug-only history attributes are omitted;
`N_strand_changes` is kept. -/
structure Cplx where
  strands : Finset StrandInfo
  doms : Finset ℕ
  edges : Finset (ℕ × ℕ × Interaction)
  hybridized_pairs : Finset (Finset ℕ)
  stacked_pairs : Finset (ℕ × ℕ)
  icid_radius : ℕ
  icid_use_instance : Bool
  N_strand_changes : ℕ
  fp_state : Option ℕ
  fp_strands : Option (Finset (String × ℕ))
  fp_hyb : Option (Finset (Finset (String × ℕ)))
  fp_stack : Option (Finset ((String × ℕ) × (String × ℕ)))
deriving DecidableEq

section ComplexModel

variable (pyhash : Finset (String × ℕ) × Finset (Finset (String × ℕ)) ×
    Finset ((String × ℕ) × (String × ℕ)) → ℕ)

variable (dssp : ℕ → String)

variable (icid_f : ℕ → ℕ → ℕ)

/-- Modelled from the spec: `domain.in_complex_identifier()` of the absent
`domain` module.  When `icid_use_instance` is set the raw per-instance
identifier is used (here `d + 1`, nonzero so that it is never confused
with the `0` sentinel meaning "only one of this species"); otherwise the
species-level identifier computed by the local traversal out to
`icid_radius` hops, abstracted as `icid_f`. -/
def in_complex_identifier (c : Cplx) (d : ℕ) : ℕ :=
  if c.icid_use_instance then d + 1 else icid_f c.icid_radius d

/-- The `(domain_strand_specie, in_complex_identifier)` pair used for each
edge endpoint in the hybridization and stacking fingerprints. -/
def domain_label (c : Cplx) (d : ℕ) : String × ℕ :=
  (dssp d, in_complex_identifier icid_f c d)

/-- `Complex.strands_species_count` (source lines 582-610): the multiset
of strand species with their counts, returned as the hashable
`frozenset(species_counts.items())`. -/
def strands_species_count (F : Finset StrandInfo) : Finset (String × ℕ) :=
  (F.image StrandInfo.name).image
    (fun nm => (nm, (F.filter (fun st => st.name = nm)).card))

/-- Value of `Complex.strands_fingerprint()` on the current state (hashing
is disabled in the source: the frozenset itself is the fingerprint). -/
def strandsFP (c : Cplx) : Finset (String × ℕ) :=
  strands_species_count c.strands

/-- `Complex.hybridization_edges` (source lines 690-705): all graph edges
keyed `HYBRIDIZATION_INTERACTION` (in a `MultiDiGraph` each hybridized
pair appears once in each direction). -/
def hybridization_edges (c : Cplx) : Finset (ℕ × ℕ × Interaction) :=
  c.edges.filter (fun e => e.2.2 = Interaction.hybridization)

/-- Value of `Complex.hybridization_fingerprint()` on the current state
(source lines 663-687): the frozenset of
`frozenset((d.domain_strand_specie, d.in_complex_identifier()) for d in
edge)` over the hybridization edges. -/
def hybFP (c : Cplx) : Finset (Finset (String × ℕ)) :=
  (hybridization_edges c).image
    (fun e => {domain_label dssp icid_f c e.1, domain_label dssp icid_f c e.2.1})

/-- `Complex.stacking_edges` (source lines 732-753): all graph edges keyed
`STACKING_INTERACTION` (single direction; stacking is directional). -/
def stacking_edges (c : Cplx) : Finset (ℕ × ℕ × Interaction) :=
  c.edges.filter (fun e => e.2.2 = Interaction.stacking)

/-- Value of `Complex.stacking_fingerprint()` on the current state (source
lines 708-729): ordered label pairs, since direction matters. -/
def stackFP (c : Cplx) : Finset ((String × ℕ) × (String × ℕ)) :=
  (stacking_edges c).image
    (fun e => (domain_label dssp icid_f c e.1, domain_label dssp icid_f c e.2.1))

/-- The canonical triple whose hash is the state fingerprint. -/
def fingerprint_triple (c : Cplx) :
    Finset (String × ℕ) × Finset (Finset (String × ℕ)) ×
      Finset ((String × ℕ) × (String × ℕ)) :=
  (strandsFP c, hybFP dssp icid_f c, stackFP dssp icid_f c)

/-- The value `hash((strands_fp, hybridization_fp, stacking_fp)) % 100000`
computed by `state_fingerprint` when the cache is empty (source lines
520-524). -/
def pureFPVal (c : Cplx) : ℕ :=
  pyhash (fingerprint_triple dssp icid_f c) % 100000

/-- The duplicate test of `state_fingerprint` (source lines 507-512): some
nonzero `in_complex_identifier` occurs more than once among the graph
nodes. -/
def hasDupIcids (c : Cplx) : Bool :=
  !(decide (((c.doms.val.map (in_complex_identifier icid_f c)).filter
      (fun i => i ≠ 0)).Nodup))

/-- Loop body of `adjust_icid_radius_or_use_instance` (source lines
535-558) with explicit fuel: double `icid_radius` and retry while
duplicates remain; when the fuel (`n_tries = 3`) is exhausted, the
`while/else` clause switches `icid_use_instance` on. -/
def adjust_go (n : ℕ) (c : Cplx) : Cplx :=
  match n with
  | 0 => { c with icid_use_instance := true }
  | n + 1 =>
    let c2 := { c with icid_radius := c.icid_radius * 2 }
    if hasDupIcids icid_f c2 then adjust_go n c2 else c2

/-- `Complex.adjust_icid_radius_or_use_instance` (source lines 529-558). -/
def adjust_icid_radius_or_use_instance (c : Cplx) : Cplx :=
  adjust_go icid_f 3 c

/-- `Complex.strands_fingerprint` (source lines 612-619): lazily cached;
an empty cached frozenset is falsy in Python and is recomputed. -/
def strands_fingerprint (c : Cplx) : Finset (String × ℕ) × Cplx :=
  match c.fp_strands with
  | some v =>
    if v = ∅ then (strandsFP c, { c with fp_strands := some (strandsFP c) })
    else (v, c)
  | none => (strandsFP c, { c with fp_strands := some (strandsFP c) })

/-- `Complex.hybridization_fingerprint` (source lines 621-687), cache
handling as for strands. -/
def hybridization_fingerprint (c : Cplx) : Finset (Finset (String × ℕ)) × Cplx :=
  match c.fp_hyb with
  | some v =>
    if v = ∅ then (hybFP dssp icid_f c, { c with fp_hyb := some (hybFP dssp icid_f c) })
    else (v, c)
  | none => (hybFP dssp icid_f c, { c with fp_hyb := some (hybFP dssp icid_f c) })

/-- `Complex.stacking_fingerprint` (source lines 708-729), cache handling
as for strands. -/
def stacking_fingerprint (c : Cplx) :
    Finset ((String × ℕ) × (String × ℕ)) × Cplx :=
  match c.fp_stack with
  | some v =>
    if v = ∅ then (stackFP dssp icid_f c, { c with fp_stack := some (stackFP dssp icid_f c) })
    else (v, c)
  | none => (stackFP dssp icid_f c, { c with fp_stack := some (stackFP dssp icid_f c) })

/-- Cache-miss path of `state_fingerprint` (source lines 517-527):
evaluate the three sub-fingerprints (filling their caches), hash the
triple, reduce mod 100000, and store the result. -/
def state_fingerprint_compute (c : Cplx) : ℕ × Cplx :=
  let sc := strands_fingerprint c
  let hc := hybridization_fingerprint dssp icid_f sc.2
  let kc := stacking_fingerprint dssp icid_f hc.2
  let v := pyhash (sc.1, hc.1, kc.1) % 100000
  (v, { kc.2 with fp_state := some v })

/-- `Complex.state_fingerprint` (source lines 465-527): first the
unconditional duplicate-icid check (possibly adjusting the radius or
switching to instance icids), then the lazily cached hash; a cached value
of `0` is falsy in Python and triggers recomputation. -/
def state_fingerprint (c : Cplx) : ℕ × Cplx :=
  let c := if hasDupIcids icid_f c then adjust_icid_radius_or_use_instance icid_f c else c
  match c.fp_state with
  | some v =>
    if v = 0 then state_fingerprint_compute pyhash dssp icid_f c else (v, c)
  | none => state_fingerprint_compute pyhash dssp icid_f c

/-- `Complex.reset_state_fingerprint` (source lines 565-577); the
`reset_domains` step only clears per-domain icid caches, which are
implicit here. -/
def reset_state_fingerprint (c : Cplx)
    (reset_strands reset_hybridizations reset_stacking : Bool) : Cplx :=
  let c := { c with fp_state := none }
  let c := if reset_strands then { c with fp_strands := none } else c
  let c := if reset_hybridizations then { c with fp_hyb := none } else c
  if reset_stacking then { c with fp_stack := none } else c

/-- The `state_should_change` decorator (source lines 66-79): record the
old fingerprint, run the wrapped method, call `reset_state_fingerprint()`
(with its default arguments: strands and hybridization caches cleared,
stacking kept), recompute, and assert the fingerprints differ.  The
returned boolean is the truth of the asserted inequality. -/
def state_should_change (method : Cplx → Cplx) (c : Cplx) : Cplx × Bool :=
  let r1 := state_fingerprint pyhash dssp icid_f c
  let c2 := method r1.2
  let c3 := reset_state_fingerprint c2 true true false
  let r2 := state_fingerprint pyhash dssp icid_f c3
  (r2.2, decide (r2.1 ≠ r1.1))

/-- Body of `Complex.add_hybridization_edge` (source lines 415-424):
`add_edge(domain1, domain2, key=HYBRIDIZATION_INTERACTION)` in both
directions (the graph is directed; `add_edge` also inserts missing
nodes), record the frozenset pair, clear the hybridization and state
caches. -/
def add_hybridization_edge_inner (p : ℕ × ℕ) (c : Cplx) : Cplx :=
  { c with doms := insert p.2 (insert p.1 c.doms),
           edges := insert (p.2, p.1, Interaction.hybridization)
             (insert (p.1, p.2, Interaction.hybridization) c.edges),
           hybridized_pairs := insert {p.1, p.2} c.hybridized_pairs,
           fp_hyb := none, fp_state := none }

/-- Body of `Complex.remove_hybridization_edge` (source lines 426-435). -/
def remove_hybridization_edge_inner (p : ℕ × ℕ) (c : Cplx) : Cplx :=
  { c with edges := (c.edges.erase (p.1, p.2, Interaction.hybridization)).erase
             (p.2, p.1, Interaction.hybridization),
           hybridized_pairs := c.hybridized_pairs.erase {p.1, p.2},
           fp_hyb := none, fp_state := none }

/-- Body of `Complex.add_stacking_edge` (source lines 437-450) for the
stacking pair `((h1end3p, h2end5p), (h2end3p, h1end5p))`, ends modelled by
their `.domain`: adds the directed stacking edges `h1end3p → h1end5p` and
`h2end3p → h2end5p`, records both ordered pairs, clears the stacking and
state caches. -/
def add_stacking_edge_inner (sp : (ℕ × ℕ) × (ℕ × ℕ)) (c : Cplx) : Cplx :=
  { c with doms := insert sp.1.2 (insert sp.2.1 (insert sp.2.2 (insert sp.1.1 c.doms))),
           edges := insert (sp.2.1, sp.1.2, Interaction.stacking)
             (insert (sp.1.1, sp.2.2, Interaction.stacking) c.edges),
           stacked_pairs := insert (sp.2.1, sp.1.2)
             (insert (sp.1.1, sp.2.2) c.stacked_pairs),
           fp_stack := none, fp_state := none }

/-- Body of `Complex.remove_stacking_edge` (source lines 452-461). -/
def remove_stacking_edge_inner (sp : (ℕ × ℕ) × (ℕ × ℕ)) (c : Cplx) : Cplx :=
  { c with edges := (c.edges.erase (sp.1.1, sp.2.2, Interaction.stacking)).erase
             (sp.2.1, sp.1.2, Interaction.stacking),
           stacked_pairs := (c.stacked_pairs.erase (sp.1.1, sp.2.2)).erase
             (sp.2.1, sp.1.2),
           fp_stack := none, fp_state := none }

/-- Backbone edges contributed by a strand's domain sequence when a strand
graph is merged into the complex graph (both directions, since the strand
graph is converted to a `MultiDiGraph`). -/
def strand_backbone_edges (st : StrandInfo) : List (ℕ × ℕ × Interaction) :=
  (st.sdoms.zip st.sdoms.tail).flatMap
    (fun pr => [(pr.1, pr.2, Interaction.backbone), (pr.2, pr.1, Interaction.backbone)])

/-- Body of `Complex.add_strand` (source lines 289-311): add the strand to
the strand set (species counters and name indexes are derived data here),
optionally merge its nodes and backbone edges into the graph, bump
`N_strand_changes`, and call `reset_state_fingerprint()`. -/
def add_strand_inner (st : StrandInfo) (update_graph : Bool) (c : Cplx) : Cplx :=
  let c1 := { c with strands := insert st c.strands }
  let c2 :=
    if update_graph then
      { c1 with doms := c1.doms ∪ st.sdoms.toFinset,
                edges := c1.edges ∪ (strand_backbone_edges st).toFinset }
    else c1
  reset_state_fingerprint { c2 with N_strand_changes := c2.N_strand_changes + 1 }
    true true false

/-- Body of `Complex.remove_strand` (source lines 314-347): remove the
strand, drop every hybridized or stacked pair touching one of its domains
when `update_edge_pairs`, and remove its nodes (with incident edges) when
`update_graph`. -/
def remove_strand_inner (st : StrandInfo) (update_graph update_edge_pairs : Bool)
    (c : Cplx) : Cplx :=
  let c1 := { c with strands := c.strands.erase st }
  let c2 :=
    if update_edge_pairs then
      { c1 with hybridized_pairs :=
                  c1.hybridized_pairs.filter (fun pr => ∀ d ∈ st.sdoms, d ∉ pr),
                stacked_pairs :=
                  c1.stacked_pairs.filter (fun pr => pr.1 ∉ st.sdoms ∧ pr.2 ∉ st.sdoms) }
    else c1
  let c3 :=
    if update_graph then
      { c2 with doms := c2.doms \ st.sdoms.toFinset,
                edges := c2.edges.filter (fun e => e.1 ∉ st.sdoms ∧ e.2.1 ∉ st.sdoms) }
    else c2
  { c3 with N_strand_changes := c3.N_strand_changes + 1 }

/-- Body of `Complex.add_strands` (source lines 350-373). -/
def add_strands_inner (sts : Finset StrandInfo) (update_graph : Bool) (c : Cplx) : Cplx :=
  let c1 := { c with strands := c.strands ∪ sts }
  let c2 :=
    if update_graph then
      { c1 with doms := c1.doms ∪ sts.biUnion (fun st => st.sdoms.toFinset),
                edges := c1.edges ∪ sts.biUnion (fun st => (strand_backbone_edges st).toFinset) }
    else c1
  { c2 with N_strand_changes := c2.N_strand_changes + 1 }

/-- Body of `Complex.remove_strands` (source lines 376-412). -/
def remove_strands_inner (sts : Finset StrandInfo) (update_graph update_edge_pairs : Bool)
    (c : Cplx) : Cplx :=
  let rem := sts.biUnion (fun st => st.sdoms.toFinset)
  let c1 := { c with strands := c.strands \ sts }
  let c2 :=
    if update_edge_pairs then
      { c1 with hybridized_pairs :=
                  c1.hybridized_pairs.filter (fun pr => ∀ d ∈ rem, d ∉ pr),
                stacked_pairs :=
                  c1.stacked_pairs.filter (fun pr => pr.1 ∉ rem ∧ pr.2 ∉ rem) }
    else c1
  let c3 :=
    if update_graph then
      { c2 with doms := c2.doms \ rem,
                edges := c2.edges.filter (fun e => e.1 ∉ rem ∧ e.2.1 ∉ rem) }
    else c2
  { c3 with N_strand_changes := c3.N_strand_changes + 1 }

/-- The decorated `add_hybridization_edge`, including the
`state_should_change` contract; the boolean is the asserted inequality. -/
def add_hybridization_edge (p : ℕ × ℕ) (c : Cplx) : Cplx × Bool :=
  state_should_change pyhash dssp icid_f (add_hybridization_edge_inner p) c

/-- The decorated `remove_hybridization_edge`. -/
def remove_hybridization_edge (p : ℕ × ℕ) (c : Cplx) : Cplx × Bool :=
  state_should_change pyhash dssp icid_f (remove_hybridization_edge_inner p) c

/-- One invocation of one of the eight `state_should_change`-decorated
`Complex` mutators, with its arguments. -/
inductive Mutator where
  | addStrand (st : StrandInfo) (update_graph : Bool)
  | removeStrand (st : StrandInfo) (update_graph update_edge_pairs : Bool)
  | addStrands (sts : Finset StrandInfo) (update_graph : Bool)
  | removeStrands (sts : Finset StrandInfo) (update_graph update_edge_pairs : Bool)
  | addHybridizationEdge (p : ℕ × ℕ)
  | removeHybridizationEdge (p : ℕ × ℕ)
  | addStackingEdge (sp : (ℕ × ℕ) × (ℕ × ℕ))
  | removeStackingEdge (sp : (ℕ × ℕ) × (ℕ × ℕ))

/-- Dispatch a mutator invocation to its (undecorated) body. -/
def applyMutatorInner (m : Mutator) (c : Cplx) : Cplx :=
  match m with
  | .addStrand st ug => add_strand_inner st ug c
  | .removeStrand st ug uep => remove_strand_inner st ug uep c
  | .addStrands sts ug => add_strands_inner sts ug c
  | .removeStrands sts ug uep => remove_strands_inner sts ug uep c
  | .addHybridizationEdge p => add_hybridization_edge_inner p c
  | .removeHybridizationEdge p => remove_hybridization_edge_inner p c
  | .addStackingEdge sp => add_stacking_edge_inner sp c
  | .removeStackingEdge sp => remove_stacking_edge_inner sp c

/-- Preconditions of a mutator invocation; they express that the call is
valid for the operation (elements to add are absent, elements to remove
are present) and therefore actually changes the graph state. -/
def mutatorOK (m : Mutator) (c : Cplx) : Prop :=
  match m with
  | .addStrand st _ => st ∉ c.strands
  | .removeStrand st _ _ => st ∈ c.strands
  | .addStrands sts _ => sts.Nonempty ∧ Disjoint sts c.strands
  | .removeStrands sts _ _ => sts.Nonempty ∧ sts ⊆ c.strands
  | .addHybridizationEdge p =>
      (p.1, p.2, Interaction.hybridization) ∉ c.edges ∧
      (p.2, p.1, Interaction.hybridization) ∉ c.edges ∧
      ({p.1, p.2} : Finset ℕ) ∉ c.hybridized_pairs
  | .removeHybridizationEdge p =>
      (p.1, p.2, Interaction.hybridization) ∈ c.edges ∧
      (p.2, p.1, Interaction.hybridization) ∈ c.edges ∧
      ({p.1, p.2} : Finset ℕ) ∈ c.hybridized_pairs
  | .addStackingEdge sp =>
      (sp.1.1, sp.2.2, Interaction.stacking) ∉ c.edges ∧
      (sp.2.1, sp.1.2, Interaction.stacking) ∉ c.edges ∧
      (sp.1.1, sp.2.2) ∉ c.stacked_pairs ∧ (sp.2.1, sp.1.2) ∉ c.stacked_pairs
  | .removeStackingEdge sp =>
      (sp.1.1, sp.2.2, Interaction.stacking) ∈ c.edges ∧
      (sp.2.1, sp.1.2, Interaction.stacking) ∈ c.edges ∧
      (sp.1.1, sp.2.2) ∈ c.stacked_pairs ∧ (sp.2.1, sp.1.2) ∈ c.stacked_pairs

/-- Equality of every field a fingerprint value can depend on, together
with the node and pair bookkeeping sets. -/
def CoreEq (c' c : Cplx) : Prop :=
  c'.strands = c.strands ∧ c'.doms = c.doms ∧ c'.edges = c.edges ∧
  c'.hybridized_pairs = c.hybridized_pairs ∧ c'.stacked_pairs = c.stacked_pairs ∧
  c'.icid_radius = c.icid_radius ∧ c'.icid_use_instance = c.icid_use_instance

/-- Invariant (e) of the spec: every fingerprint cache is `None` or
consistent with the current graph.  A falsy cached value (`0` for the
state hash, the empty frozenset for the others) is recomputed by the
getters anyway, so consistency is only required of truthy caches. -/
def CachesOK (c : Cplx) : Prop :=
  (∀ v, c.fp_state = some v → v ≠ 0 → v = pureFPVal pyhash dssp icid_f c) ∧
  (∀ v, c.fp_strands = some v → v ≠ ∅ → v = strandsFP c) ∧
  (∀ v, c.fp_hyb = some v → v ≠ ∅ → v = hybFP dssp icid_f c) ∧
  (∀ v, c.fp_stack = some v → v ≠ ∅ → v = stackFP dssp icid_f c)

end ComplexModel

/-- A small two-strand complex in its freshly-constructed state
(`icid_use_instance = False or True`, i.e. `true`; all caches empty). -/
def demoComplex : Cplx where
  strands := {⟨0, "s1", [0]⟩, ⟨1, "s2", [1]⟩}
  doms := {0, 1}
  edges := ∅
  hybridized_pairs := ∅
  stacked_pairs := ∅
  icid_radius := 5
  icid_use_instance := true
  N_strand_changes := 0
  fp_state := none
  fp_strands := none
  fp_hyb := none
  fp_stack := none

/-! ## Theorems -/

/-- Claim C1 (code bug): the stacking correction is claimed to add
`ΔH_corr += -7·N_s` and `ΔS_corr += -20·N_s` with `N_s` the count (0-4) of
hybridized adjacent backbone neighbours.  At the failing input in which all
four neighbours exist and are hybridized (domains in distinct complexes),
the source expression `a or b + c or d` evaluates to `True` (numerically
1), not 4, so the code adds only `-7`/`-20` once: the returned corrections
are `ΔH_corr = -3·3 + -7·1 = -16` and `ΔS_corr = -10·3 + -20·1 = -50`,
whereas the claimed count is `hybridizedNeighborCount = 4` (which would
give a stacking contribution of `-28`/`-80`). -/
theorem c1_stacking_miscount :
    N_stacking true true true true = 1 ∧
    hybridizedNeighborCount true true true true = 4 ∧
    (hybridization_energy (0, 0) (allNeighborsHybridized (some 1))
        (allNeighborsHybridized (some 2)) 330).2.2.2 = (-16, -50) ∧
    (-7 : ℚ) * N_stacking true true true true ≠
      -7 * hybridizedNeighborCount true true true true := by
  refine ⟨rfl, rfl, ?_, by norm_num [N_stacking, hybridizedNeighborCount]⟩
  norm_num [hybridization_energy, allNeighborsHybridized, N_neighbors, N_stacking]

/-- Claim C2 (code bug): the neighbour (electrostatic) correction is
claimed to add `ΔH_corr += -3·N_n`, `ΔS_corr += -10·N_n` with `N_n` the
number of existing adjacent backbone neighbours counted over all four
positions (0-4).  The source sums `bool` over only three items, collapsing
`domain2.domain5p() or domain1.domain3p()` into one, so at the failing
input in which all four neighbours exist (and none is hybridized, domains
in distinct complexes) the code uses `N_neighbors = 3` and returns
corrections `(-9, -30)`, whereas the claimed count is 4 (corrections
`(-12, -40)`). -/
theorem c2_neighbor_miscount :
    N_neighbors true true true true = 3 ∧
    existingNeighborCount true true true true = 4 ∧
    (hybridization_energy (0, 0) (allNeighborsExist (some 1))
        (allNeighborsExist (some 2)) 330).2.2.2 = (-9, -30) ∧
    (-3 : ℚ) * N_neighbors true true true true ≠
      -3 * existingNeighborCount true true true true := by
  refine ⟨rfl, rfl, ?_, by norm_num [N_neighbors, existingNeighborCount]⟩
  norm_num [hybridization_energy, allNeighborsExist, N_neighbors, N_stacking]

/-- Claim C3 (code bug): the `+4` intra-complex entropy correction is
claimed to be added iff the two domains already belong to one same complex,
and in particular not when both are free domains belonging to no complex.
The source test `domain1.Complex == domain2.Complex` is `True` when both
attributes are `None`, so at the failing input of two free domains the code
adds `+4` to `ΔS_corr` anyway; for domains in two distinct complexes it
correctly adds nothing. -/
theorem c3_free_domains_get_ring_closure_bonus :
    (hybridization_energy (0, 0) freeDomain freeDomain 330).2.2.2.2 = 4 ∧
    (hybridization_energy (0, 0) (allNeighborsExist (some 1))
        (allNeighborsExist (some 2)) 330).2.2.2.2 = -30 ∧
    (hybridization_energy (0, 0) freeDomain freeDomain 330).2.2.2.2 ≠ 0 := by
  refine ⟨?_, ?_, ?_⟩ <;>
    norm_num [hybridization_energy, freeDomain, allNeighborsExist, N_neighbors, N_stacking]

/-- Claim C5 counterexample: with `oversampling = 2` and `p_hyb = 1/4` on a
hybridized pair, the value handed to the dice roll is `-1/2`, which lies
outside `[0,1]` and differs from the clamped value `0` the claim asserts is
used; a draw of `u = 0` even decides differently under the two. -/
theorem c5_unclamped_counterexample :
    p_used true 2 (1/4) = -(1/2) ∧
    (p_used true 2 (1/4) < 0) ∧
    p_used true 2 (1/4) ≠ max 0 (min 1 (1 - 2 * (1 - (1/4 : ℚ)))) ∧
    dice_wants_hybridized (p_used true 2 (1/4)) 0 ≠
      dice_wants_hybridized (max 0 (min 1 (1 - 2 * (1 - (1/4 : ℚ))))) 0 := by
  refine ⟨?_, ?_, ?_, ?_⟩ <;> norm_num [p_used, dice_wants_hybridized]

/-- Claim C5, amended: when the selected pair is hybridized and
`oversampling` is nonzero (the code tests truthiness, not `> 1`), the value
compared against the uniform draw is the *unclamped*
`1 - oversampling·(1 - p_hyb)`; for `oversampling = 1` this equals `p_hyb`
itself, and the value never exceeds 1 when `0 ≤ oversampling` and
`p_hyb ≤ 1`, but it can drop below 0 and is then compared as-is. -/
theorem c5_oversampling_formula (q p : ℚ) :
    p_used true 1 p = p ∧
    (q ≠ 0 → p_used true q p = 1 - q * (1 - p)) ∧
    (0 ≤ q → p ≤ 1 → p_used true q p ≤ 1) ∧
    p_used false q p = p := by
  refine ⟨?_, fun hq => ?_, fun hq hp => ?_, ?_⟩
  · rw [p_used, if_pos ⟨rfl, one_ne_zero⟩]; ring
  · rw [p_used, if_pos ⟨rfl, hq⟩]
  · rcases eq_or_ne q 0 with h0 | h0
    · simp [p_used, h0, hp]
    · rw [p_used, if_pos ⟨rfl, h0⟩]
      nlinarith
  · simp [p_used]

/-- Witness for `c5_oversampling_formula` at `q = 2`, `p = 1/2`. -/
theorem c5_oversampling_formula_witness :
    (2 : ℚ) ≠ 0 ∧ p_used true 2 (1/2) = 1 - 2 * (1 - (1/2 : ℚ)) :=
  ⟨by norm_num, (c5_oversampling_formula 2 (1/2)).2.1 (by norm_num)⟩

theorem list_sum_map_div (l : List ℚ) (s : ℚ) :
    (l.map (fun w => w / s)).sum = l.sum / s := by
  induction l with
  | nil => simp
  | cons a t ih => simp [ih, add_div]

/-- Claim C6 (confirmed): letting `W` be the sum of the candidate weights,
if `W < 1` the null candidate is appended with weight exactly `1 - W`; if
`W > 1` every weight is divided by `W`; and in every case the finalized
weight vector that the categorical draw receives sums to 1. -/
theorem c6_weights_finalized (α : Type) (cs : List α) (ws : List ℚ) :
    (ws.sum < 1 →
      select_prepare cs ws = (cs.map some ++ [none], ws ++ [1 - ws.sum])) ∧
    (ws.sum > 1 →
      select_prepare cs ws = (cs.map some, ws.map (fun w => w / ws.sum))) ∧
    (select_prepare cs ws).2.sum = 1 := by
  refine ⟨fun h => ?_, fun h => ?_, ?_⟩
  · simp only [select_prepare, if_pos h, if_neg (by linarith : ¬ ws.sum > 1)]
  · simp only [select_prepare, if_neg (by linarith : ¬ ws.sum < 1), if_pos h]
  · rcases lt_trichotomy ws.sum 1 with h | h | h
    · simp only [select_prepare, if_pos h, if_neg (by linarith : ¬ ws.sum > 1)]
      simp
    · simp only [select_prepare, if_neg (by linarith : ¬ ws.sum < 1),
        if_neg (by linarith : ¬ ws.sum > 1)]
      exact h
    · simp only [select_prepare, if_neg (by linarith : ¬ ws.sum < 1), if_pos h]
      rw [list_sum_map_div]
      exact div_self (by linarith)

/-- Witness for `c6_weights_finalized` at one candidate of weight `1/4`
(so `W = 1/4 < 1`): the null candidate gets weight `3/4` and the
finalized weights sum to 1. -/
theorem c6_weights_finalized_witness :
    select_prepare [0] [(1 : ℚ)/4] = ([some 0, none], [1/4, 3/4]) ∧
    (select_prepare [0] [(1 : ℚ)/4]).2.sum = 1 := by
  have h := c6_weights_finalized ℕ [0] [(1 : ℚ)/4]
  refine ⟨?_, h.2.2⟩
  have h1 := h.1 (by norm_num)
  norm_num at h1 ⊢
  exact h1

theorem mem_select_prepare_candidates {α : Type} [DecidableEq α]
    {cs : List α} {ws : List ℚ} {x : α}
    (h : some x ∈ (select_prepare cs ws).1) : x ∈ cs := by
  unfold select_prepare at h
  by_cases hs : ws.sum < 1
  · simp only [if_pos hs] at h
    rcases List.mem_append.mp h with h' | h'
    · exact (List.mem_map.mp h').elim (fun a ⟨ha, he⟩ => (Option.some_inj.mp he) ▸ ha)
    · simp at h'
  · simp only [if_neg hs] at h
    exact (List.mem_map.mp h).elim (fun a ⟨ha, he⟩ => (Option.some_inj.mp he) ▸ ha)

/-- Claim C10 (confirmed): under the constructor assertion that the
complement map has no fixed point on the tube's domain names, and the
partner invariant that a partner's species is the declared complement,
every selection returning a non-null second domain yields two distinct
instances with distinct species names, so the `step()` assertion holds for
the pair handed to the probability computation. -/
theorem c10_selected_pair_distinct (t : TubeSel) (eff : ℕ → ℕ → ℚ)
    (hpairs : ∀ d ∈ t.domains_list, t.domain_pairs (t.name d) ≠ t.name d)
    (hpartner : ∀ d ∈ t.domains_list, ∀ p, t.partner d = some p →
      t.name p = t.domain_pairs (t.name d))
    (i j d1 d2 : ℕ) (b : Option Bool)
    (hsel : select_event_domains t eff i j = some (d1, some d2, b)) :
    step_assertion t d1 d2 := by
  unfold select_event_domains at hsel
  split at hsel
  · exact Option.noConfusion hsel
  · rename_i dom1 hi
    have hmem : dom1 ∈ t.domains_list := List.get?_mem hi
    split at hsel
    · rename_i p hp
      simp only [Option.some.injEq, Prod.mk.injEq] at hsel
      obtain ⟨h1, h2, -⟩ := hsel
      have hname : t.name d2 = t.domain_pairs (t.name d1) := by
        rw [← h1, ← h2]
        exact hpartner dom1 hmem p hp
      exact ⟨fun he => hpairs d1 (h1 ▸ hmem) (hname.symm.trans (congrArg t.name he.symm)),
        fun he => hpairs d1 (h1 ▸ hmem) (hname.symm.trans he.symm)⟩
    · rename_i hp
      simp only [Option.some.injEq, Prod.mk.injEq] at hsel
      obtain ⟨h1, h2, -⟩ := hsel
      have hget := Option.join_eq_some.mp h2
      have hj : some d2 ∈ (select_prepare
          ((t.domains_list.filter (fun d => t.name d = t.domain_pairs (t.name dom1))).filter
            (fun d => (t.partner d).isNone))
          (((t.domains_list.filter (fun d => t.name d = t.domain_pairs (t.name dom1))).filter
            (fun d => (t.partner d).isNone)).map (fun d => eff d dom1))).1 :=
        List.get?_mem hget
      have hc : d2 ∈ (t.domains_list.filter
          (fun d => t.name d = t.domain_pairs (t.name dom1))).filter
          (fun d => (t.partner d).isNone) :=
        mem_select_prepare_candidates hj
      have hname : t.name d2 = t.domain_pairs (t.name d1) := by
        rw [← h1]
        have := List.mem_filter.mp (List.mem_filter.mp hc).1
        exact of_decide_eq_true this.2
      exact ⟨fun he => hpairs d1 (h1 ▸ hmem) (hname.symm.trans (congrArg t.name he.symm)),
        fun he => hpairs d1 (h1 ▸ hmem) (hname.symm.trans he.symm)⟩

/-- Witness for `c10_selected_pair_distinct`: in `tubeAa`, draws `i = 0`,
`j = 0` select the pair `(0, 1)`, and the step assertion holds for it. -/
theorem c10_selected_pair_distinct_witness : step_assertion tubeAa 0 1 :=
  c10_selected_pair_distinct tubeAa (fun _ _ => 2)
    (by decide)
    (fun _ _ _ h => Option.noConfusion h)
    0 0 0 1 none (by simp [select_event_domains, tubeAa, select_prepare])

/-- Claim C9 counterexample: flushing with every cache empty is *not* a
no-op on the output files: each file gets the single character `"\n"`
appended (one empty line), not the empty string that "appends zero output
lines" would require. -/
theorem c9_empty_flush_writes_newline :
    (save_stats_cache defaultStatsFiles (fun _ => [])).2 =
      [("base_timesampling.csv", "\n"), ("base_changesampling.csv", "\n")] ∧
    stats_block [] = "\n" ∧
    stats_block [] ≠ "" := by
  refine ⟨rfl, rfl, ?_⟩
  decide

/-- Claim C9, amended: calling `save_stats_cache` when every stats cache is
empty leaves all caches empty and appends exactly one newline character (a
single empty line, no data lines) to each configured stats output file. -/
theorem c9_empty_flush_behavior (outputfilenames : List (String × String))
    (stats_cache : String → List String)
    (hempty : ∀ k, stats_cache k = []) :
    (∀ k, (save_stats_cache outputfilenames stats_cache).1 k = []) ∧
    (∀ e ∈ (save_stats_cache outputfilenames stats_cache).2, e.2 = "\n") := by
  constructor
  · intro k
    simp only [save_stats_cache]
    split
    · rfl
    · exact hempty k
  · intro e he
    simp only [save_stats_cache, List.mem_map] at he
    obtain ⟨a, -, ha⟩ := he
    rw [← ha]
    show stats_block (stats_cache a.1) = "\n"
    rw [hempty a.1]
    rfl

/-- Witness for `c9_empty_flush_behavior` on the default stats files. -/
theorem c9_empty_flush_behavior_witness :
    (save_stats_cache defaultStatsFiles (fun _ => [])).1 "timesampling" = [] ∧
    ∀ e ∈ (save_stats_cache defaultStatsFiles (fun _ => [])).2, e.2 = "\n" :=
  ⟨(c9_empty_flush_behavior defaultStatsFiles (fun _ => []) (fun _ => rfl)).1 "timesampling",
   (c9_empty_flush_behavior defaultStatsFiles (fun _ => []) (fun _ => rfl)).2⟩

/-- Claim C4 (code bug): after one accepted hybridization step from `sim0`,
two strands have a hybridized domain, but the global counter
`N_strands_hybridized` — set once in `__init__` and never updated by either
mutation path of `step` — still reads 0, and the stats snapshot taken at
that step reports `N_strand_hyb = 0` and `f_strand_hyb = 0` instead of the
true values 2 and 1. -/
theorem c4_strand_counter_never_updated :
    n_hybridized_strands (step_hybridize sim0 0 1) = 2 ∧
    (step_hybridize sim0 0 1).N_strands_hybridized = 0 ∧
    (record_stats_snapshot (step_hybridize sim0 0 1) 330).2.2.2.1 = 0 ∧
    (record_stats_snapshot (step_hybridize sim0 0 1) 330).2.2.2.2 = 0 ∧
    (n_hybridized_strands (step_dehybridize (step_hybridize sim0 0 1) 0 1) = 0 ∧
      (step_dehybridize (step_hybridize sim0 0 1) 0 1).N_strands_hybridized = 0) := by
  refine ⟨rfl, rfl, ?_, ?_, rfl, rfl⟩ <;>
    norm_num [record_stats_snapshot, step_hybridize, sim0]

section ComplexProofs

variable (pyhash : Finset (String × ℕ) × Finset (Finset (String × ℕ)) ×
    Finset ((String × ℕ) × (String × ℕ)) → ℕ)

variable (dssp : ℕ → String)

variable (icid_f : ℕ → ℕ → ℕ)

theorem strandsFP_congr {c' c : Cplx} (h : c'.strands = c.strands) :
    strandsFP c' = strandsFP c := by
  unfold strandsFP
  rw [h]

theorem hybFP_congr {c' c : Cplx} (he : c'.edges = c.edges)
    (hr : c'.icid_radius = c.icid_radius)
    (hu : c'.icid_use_instance = c.icid_use_instance) :
    hybFP dssp icid_f c' = hybFP dssp icid_f c := by
  unfold hybFP hybridization_edges domain_label in_complex_identifier
  rw [he, hr, hu]

theorem stackFP_congr {c' c : Cplx} (he : c'.edges = c.edges)
    (hr : c'.icid_radius = c.icid_radius)
    (hu : c'.icid_use_instance = c.icid_use_instance) :
    stackFP dssp icid_f c' = stackFP dssp icid_f c := by
  unfold stackFP stacking_edges domain_label in_complex_identifier
  rw [he, hr, hu]

theorem pureFPVal_congr {c' c : Cplx} (hs : c'.strands = c.strands)
    (he : c'.edges = c.edges) (hr : c'.icid_radius = c.icid_radius)
    (hu : c'.icid_use_instance = c.icid_use_instance) :
    pureFPVal pyhash dssp icid_f c' = pureFPVal pyhash dssp icid_f c := by
  unfold pureFPVal fingerprint_triple
  rw [strandsFP_congr hs, hybFP_congr dssp icid_f he hr hu, stackFP_congr dssp icid_f he hr hu]

theorem pureFPVal_congr_of_core {c' c : Cplx} (h : CoreEq c' c) :
    pureFPVal pyhash dssp icid_f c' = pureFPVal pyhash dssp icid_f c :=
  pureFPVal_congr pyhash dssp icid_f h.1 h.2.2.1 h.2.2.2.2.2.1 h.2.2.2.2.2.2

theorem coreEq_refl (c : Cplx) : CoreEq c c :=
  ⟨rfl, rfl, rfl, rfl, rfl, rfl, rfl⟩

theorem coreEq_trans {c1 c2 c3 : Cplx} (h12 : CoreEq c1 c2) (h23 : CoreEq c2 c3) :
    CoreEq c1 c3 := by
  obtain ⟨a1, a2, a3, a4, a5, a6, a7⟩ := h12
  obtain ⟨b1, b2, b3, b4, b5, b6, b7⟩ := h23
  exact ⟨a1.trans b1, a2.trans b2, a3.trans b3, a4.trans b4, a5.trans b5,
    a6.trans b6, a7.trans b7⟩

/-- With instance-based icids every identifier is a distinct successor, so
the duplicate test of `state_fingerprint` never fires. -/
theorem hasDupIcids_eq_false (c : Cplx) (hui : c.icid_use_instance = true) :
    hasDupIcids icid_f c = false := by
  unfold hasDupIcids
  rw [Bool.not_eq_false', decide_eq_true_iff]
  have hmap : c.doms.val.map (in_complex_identifier icid_f c) =
      c.doms.val.map (fun d => d + 1) := by
    apply Multiset.map_congr rfl
    intro d _
    simp [in_complex_identifier, hui]
  rw [hmap]
  exact ((c.doms.nodup.map (fun x y h => Nat.succ_injective h)).filter _)

theorem strands_fingerprint_fst (c : Cplx)
    (h : ∀ v, c.fp_strands = some v → v ≠ ∅ → v = strandsFP c) :
    (strands_fingerprint c).1 = strandsFP c := by
  unfold strands_fingerprint
  split
  next v heq =>
    split
    next => rfl
    next hv => exact h v heq hv
  next => rfl

theorem strands_fingerprint_snd (c : Cplx) :
    (strands_fingerprint c).2 = c ∨
    (strands_fingerprint c).2 = { c with fp_strands := some (strandsFP c) } := by
  unfold strands_fingerprint
  split
  next v heq =>
    split
    next => right; rfl
    next => left; rfl
  next => right; rfl

theorem hybridization_fingerprint_fst (c : Cplx)
    (h : ∀ v, c.fp_hyb = some v → v ≠ ∅ → v = hybFP dssp icid_f c) :
    (hybridization_fingerprint dssp icid_f c).1 = hybFP dssp icid_f c := by
  unfold hybridization_fingerprint
  split
  next v heq =>
    split
    next => rfl
    next hv => exact h v heq hv
  next => rfl

theorem hybridization_fingerprint_snd (c : Cplx) :
    (hybridization_fingerprint dssp icid_f c).2 = c ∨
    (hybridization_fingerprint dssp icid_f c).2 =
      { c with fp_hyb := some (hybFP dssp icid_f c) } := by
  unfold hybridization_fingerprint
  split
  next v heq =>
    split
    next => right; rfl
    next => left; rfl
  next => right; rfl

theorem stacking_fingerprint_fst (c : Cplx)
    (h : ∀ v, c.fp_stack = some v → v ≠ ∅ → v = stackFP dssp icid_f c) :
    (stacking_fingerprint dssp icid_f c).1 = stackFP dssp icid_f c := by
  unfold stacking_fingerprint
  split
  next v heq =>
    split
    next => rfl
    next hv => exact h v heq hv
  next => rfl

theorem stacking_fingerprint_snd (c : Cplx) :
    (stacking_fingerprint dssp icid_f c).2 = c ∨
    (stacking_fingerprint dssp icid_f c).2 =
      { c with fp_stack := some (stackFP dssp icid_f c) } := by
  unfold stacking_fingerprint
  split
  next v heq =>
    split
    next => right; rfl
    next => left; rfl
  next => right; rfl

theorem strands_fingerprint_spec (c : Cplx)
    (h : ∀ v, c.fp_strands = some v → v ≠ ∅ → v = strandsFP c) :
    (strands_fingerprint c).1 = strandsFP c ∧
    CoreEq (strands_fingerprint c).2 c ∧
    ((strands_fingerprint c).2).fp_state = c.fp_state ∧
    ((strands_fingerprint c).2).fp_hyb = c.fp_hyb ∧
    ((strands_fingerprint c).2).fp_stack = c.fp_stack ∧
    (∀ v, ((strands_fingerprint c).2).fp_strands = some v → v ≠ ∅ →
      v = strandsFP (strands_fingerprint c).2) := by
  refine ⟨strands_fingerprint_fst c h, ?_⟩
  rcases strands_fingerprint_snd c with hcase | hcase <;> rw [hcase]
  · exact ⟨⟨rfl, rfl, rfl, rfl, rfl, rfl, rfl⟩, rfl, rfl, rfl, h⟩
  · exact ⟨⟨rfl, rfl, rfl, rfl, rfl, rfl, rfl⟩, rfl, rfl, rfl,
      fun v hv hne => (Option.some_inj.mp hv).symm⟩

theorem hybridization_fingerprint_spec (c : Cplx)
    (h : ∀ v, c.fp_hyb = some v → v ≠ ∅ → v = hybFP dssp icid_f c) :
    (hybridization_fingerprint dssp icid_f c).1 = hybFP dssp icid_f c ∧
    CoreEq (hybridization_fingerprint dssp icid_f c).2 c ∧
    ((hybridization_fingerprint dssp icid_f c).2).fp_state = c.fp_state ∧
    ((hybridization_fingerprint dssp icid_f c).2).fp_strands = c.fp_strands ∧
    ((hybridization_fingerprint dssp icid_f c).2).fp_stack = c.fp_stack ∧
    (∀ v, ((hybridization_fingerprint dssp icid_f c).2).fp_hyb = some v → v ≠ ∅ →
      v = hybFP dssp icid_f (hybridization_fingerprint dssp icid_f c).2) := by
  refine ⟨hybridization_fingerprint_fst dssp icid_f c h, ?_⟩
  rcases hybridization_fingerprint_snd dssp icid_f c with hcase | hcase <;> rw [hcase]
  · exact ⟨⟨rfl, rfl, rfl, rfl, rfl, rfl, rfl⟩, rfl, rfl, rfl, h⟩
  · exact ⟨⟨rfl, rfl, rfl, rfl, rfl, rfl, rfl⟩, rfl, rfl, rfl,
      fun v hv hne => (Option.some_inj.mp hv).symm⟩

theorem stacking_fingerprint_spec (c : Cplx)
    (h : ∀ v, c.fp_stack = some v → v ≠ ∅ → v = stackFP dssp icid_f c) :
    (stacking_fingerprint dssp icid_f c).1 = stackFP dssp icid_f c ∧
    CoreEq (stacking_fingerprint dssp icid_f c).2 c ∧
    ((stacking_fingerprint dssp icid_f c).2).fp_state = c.fp_state ∧
    ((stacking_fingerprint dssp icid_f c).2).fp_strands = c.fp_strands ∧
    ((stacking_fingerprint dssp icid_f c).2).fp_hyb = c.fp_hyb ∧
    (∀ v, ((stacking_fingerprint dssp icid_f c).2).fp_stack = some v → v ≠ ∅ →
      v = stackFP dssp icid_f (stacking_fingerprint dssp icid_f c).2) := by
  refine ⟨stacking_fingerprint_fst dssp icid_f c h, ?_⟩
  rcases stacking_fingerprint_snd dssp icid_f c with hcase | hcase <;> rw [hcase]
  · exact ⟨⟨rfl, rfl, rfl, rfl, rfl, rfl, rfl⟩, rfl, rfl, rfl, h⟩
  · exact ⟨⟨rfl, rfl, rfl, rfl, rfl, rfl, rfl⟩, rfl, rfl, rfl,
      fun v hv hne => (Option.some_inj.mp hv).symm⟩

theorem state_fingerprint_compute_spec (c : Cplx)
    (hstr : ∀ v, c.fp_strands = some v → v ≠ ∅ → v = strandsFP c)
    (hhyb : ∀ v, c.fp_hyb = some v → v ≠ ∅ → v = hybFP dssp icid_f c)
    (hstk : ∀ v, c.fp_stack = some v → v ≠ ∅ → v = stackFP dssp icid_f c) :
    (state_fingerprint_compute pyhash dssp icid_f c).1 = pureFPVal pyhash dssp icid_f c ∧
    CoreEq (state_fingerprint_compute pyhash dssp icid_f c).2 c ∧
    CachesOK pyhash dssp icid_f (state_fingerprint_compute pyhash dssp icid_f c).2 := by
  obtain ⟨hs_fst, hs_core, hs_state, hs_hyb, hs_stack, hs_self⟩ :=
    strands_fingerprint_spec c hstr
  have hhyb1 : ∀ v, ((strands_fingerprint c).2).fp_hyb = some v → v ≠ ∅ →
      v = hybFP dssp icid_f (strands_fingerprint c).2 := by
    intro v hv hne
    rw [hs_hyb] at hv
    rw [hybFP_congr dssp icid_f hs_core.2.2.1 hs_core.2.2.2.2.2.1 hs_core.2.2.2.2.2.2]
    exact hhyb v hv hne
  obtain ⟨hh_fst, hh_core, hh_state, hh_strands, hh_stack, hh_self⟩ :=
    hybridization_fingerprint_spec dssp icid_f ((strands_fingerprint c).2) hhyb1
  have hcore2 : CoreEq
      ((hybridization_fingerprint dssp icid_f (strands_fingerprint c).2).2) c :=
    coreEq_trans hh_core hs_core
  have hstk2 : ∀ v,
      ((hybridization_fingerprint dssp icid_f (strands_fingerprint c).2).2).fp_stack = some v →
      v ≠ ∅ →
      v = stackFP dssp icid_f
        (hybridization_fingerprint dssp icid_f (strands_fingerprint c).2).2 := by
    intro v hv hne
    rw [hh_stack, hs_stack] at hv
    rw [stackFP_congr dssp icid_f hcore2.2.2.1 hcore2.2.2.2.2.2.1 hcore2.2.2.2.2.2.2]
    exact hstk v hv hne
  obtain ⟨hk_fst, hk_core, hk_state, hk_strands, hk_hyb, hk_self⟩ :=
    stacking_fingerprint_spec dssp icid_f
      ((hybridization_fingerprint dssp icid_f (strands_fingerprint c).2).2) hstk2
  have hcore3 : CoreEq
      ((stacking_fingerprint dssp icid_f
        (hybridization_fingerprint dssp icid_f (strands_fingerprint c).2).2).2) c :=
    coreEq_trans hk_core hcore2
  have hval : (state_fingerprint_compute pyhash dssp icid_f c).1 =
      pyhash ((strands_fingerprint c).1,
        (hybridization_fingerprint dssp icid_f (strands_fingerprint c).2).1,
        (stacking_fingerprint dssp icid_f
          (hybridization_fingerprint dssp icid_f (strands_fingerprint c).2).2).1) % 100000 :=
    rfl
  have hv_eq : (state_fingerprint_compute pyhash dssp icid_f c).1 =
      pureFPVal pyhash dssp icid_f c := by
    rw [hval, hs_fst, hh_fst, hk_fst]
    rw [hybFP_congr dssp icid_f hs_core.2.2.1 hs_core.2.2.2.2.2.1 hs_core.2.2.2.2.2.2]
    rw [stackFP_congr dssp icid_f hcore2.2.2.1 hcore2.2.2.2.2.2.1 hcore2.2.2.2.2.2.2]
    rfl
  have hcore_mid : CoreEq (state_fingerprint_compute pyhash dssp icid_f c).2
      ((stacking_fingerprint dssp icid_f
        (hybridization_fingerprint dssp icid_f (strands_fingerprint c).2).2).2) :=
    ⟨rfl, rfl, rfl, rfl, rfl, rfl, rfl⟩
  have hcore_final : CoreEq (state_fingerprint_compute pyhash dssp icid_f c).2 c :=
    coreEq_trans hcore_mid hcore3
  refine ⟨hv_eq, hcore_final, ?_, ?_, ?_, ?_⟩
  · intro v hv hne
    have hv0 : some ((state_fingerprint_compute pyhash dssp icid_f c).1) = some v := hv
    rw [← Option.some_inj.mp hv0, hv_eq]
    exact (pureFPVal_congr_of_core pyhash dssp icid_f hcore_final).symm
  · intro v hv hne
    have hv0 : ((stacking_fingerprint dssp icid_f
        (hybridization_fingerprint dssp icid_f (strands_fingerprint c).2).2).2).fp_strands =
        some v := hv
    rw [hk_strands, hh_strands] at hv0
    rw [hs_self v hv0 hne]
    exact (strandsFP_congr hs_core.1).trans (strandsFP_congr hcore_final.1).symm
  · intro v hv hne
    have hv0 : ((stacking_fingerprint dssp icid_f
        (hybridization_fingerprint dssp icid_f (strands_fingerprint c).2).2).2).fp_hyb =
        some v := hv
    rw [hk_hyb] at hv0
    rw [hh_self v hv0 hne]
    rw [hybFP_congr dssp icid_f hcore2.2.2.1 hcore2.2.2.2.2.2.1 hcore2.2.2.2.2.2.2]
    exact (hybFP_congr dssp icid_f hcore_final.2.2.1 hcore_final.2.2.2.2.2.1
      hcore_final.2.2.2.2.2.2).symm
  · intro v hv hne
    have hv0 : ((stacking_fingerprint dssp icid_f
        (hybridization_fingerprint dssp icid_f (strands_fingerprint c).2).2).2).fp_stack =
        some v := hv
    rw [hk_self v hv0 hne]
    rw [stackFP_congr dssp icid_f hcore3.2.2.1 hcore3.2.2.2.2.2.1 hcore3.2.2.2.2.2.2]
    exact (stackFP_congr dssp icid_f hcore_final.2.2.1 hcore_final.2.2.2.2.2.1
      hcore_final.2.2.2.2.2.2).symm

theorem state_fingerprint_main (c : Cplx) (hui : c.icid_use_instance = true)
    (hc : CachesOK pyhash dssp icid_f c) :
    (state_fingerprint pyhash dssp icid_f c).1 = pureFPVal pyhash dssp icid_f c ∧
    CoreEq (state_fingerprint pyhash dssp icid_f c).2 c ∧
    CachesOK pyhash dssp icid_f (state_fingerprint pyhash dssp icid_f c).2 := by
  obtain ⟨h1, h2, h3, h4⟩ := hc
  have hred : state_fingerprint pyhash dssp icid_f c =
      (match c.fp_state with
      | some v =>
        if v = 0 then state_fingerprint_compute pyhash dssp icid_f c else (v, c)
      | none => state_fingerprint_compute pyhash dssp icid_f c) := by
    unfold state_fingerprint
    rw [hasDupIcids_eq_false icid_f c hui]
    simp
  rw [hred]
  split
  next v heq =>
    by_cases hv : v = 0
    · rw [if_pos hv]
      exact state_fingerprint_compute_spec pyhash dssp icid_f c h2 h3 h4
    · rw [if_neg hv]
      refine ⟨h1 v heq hv, coreEq_refl c, ?_, h2, h3, h4⟩
      intro w hw hne
      have hw0 : c.fp_state = some w := hw
      rw [heq] at hw0
      rw [← Option.some_inj.mp hw0]
      exact h1 v heq hv
  next heq =>
    exact state_fingerprint_compute_spec pyhash dssp icid_f c h2 h3 h4

theorem stacking_filter_insert_hyb (E : Finset (ℕ × ℕ × Interaction)) (u v x y : ℕ) :
    (insert (u, v, Interaction.hybridization)
        (insert (x, y, Interaction.hybridization) E)).filter
      (fun e => e.2.2 = Interaction.stacking) =
    E.filter (fun e => e.2.2 = Interaction.stacking) := by
  ext e
  simp only [Finset.mem_filter, Finset.mem_insert]
  constructor
  · rintro ⟨rfl | rfl | he, hk⟩
    · simp at hk
    · simp at hk
    · exact ⟨he, hk⟩
  · rintro ⟨he, hk⟩
    exact ⟨Or.inr (Or.inr he), hk⟩

theorem stacking_filter_erase_hyb (E : Finset (ℕ × ℕ × Interaction)) (u v x y : ℕ) :
    ((E.erase (x, y, Interaction.hybridization)).erase
        (u, v, Interaction.hybridization)).filter
      (fun e => e.2.2 = Interaction.stacking) =
    E.filter (fun e => e.2.2 = Interaction.stacking) := by
  ext e
  simp only [Finset.mem_filter, Finset.mem_erase]
  constructor
  · rintro ⟨⟨-, -, he⟩, hk⟩
    exact ⟨he, hk⟩
  · rintro ⟨he, hk⟩
    refine ⟨⟨?_, ?_, he⟩, hk⟩ <;> rintro rfl <;> simp at hk

theorem stackFP_eq_of (d' d : Cplx)
    (hedge : d'.edges.filter (fun e => e.2.2 = Interaction.stacking) =
      d.edges.filter (fun e => e.2.2 = Interaction.stacking))
    (hr : d'.icid_radius = d.icid_radius)
    (hu : d'.icid_use_instance = d.icid_use_instance) :
    stackFP dssp icid_f d' = stackFP dssp icid_f d := by
  unfold stackFP stacking_edges domain_label in_complex_identifier
  rw [hr, hu, hedge]

theorem stackFP_add_hyb_inner (p : ℕ × ℕ) (d : Cplx) :
    stackFP dssp icid_f (add_hybridization_edge_inner p d) = stackFP dssp icid_f d :=
  stackFP_eq_of dssp icid_f _ d
    (stacking_filter_insert_hyb d.edges p.2 p.1 p.1 p.2) rfl rfl

theorem stackFP_remove_hyb_inner (p : ℕ × ℕ) (d : Cplx) :
    stackFP dssp icid_f (remove_hybridization_edge_inner p d) = stackFP dssp icid_f d :=
  stackFP_eq_of dssp icid_f _ d
    (stacking_filter_erase_hyb d.edges p.2 p.1 p.1 p.2) rfl rfl

theorem add_hyb_decorated_spec (x y : ℕ) (c : Cplx)
    (hui : c.icid_use_instance = true) (hc : CachesOK pyhash dssp icid_f c) :
    ((add_hybridization_edge pyhash dssp icid_f (x, y) c).1).strands = c.strands ∧
    ((add_hybridization_edge pyhash dssp icid_f (x, y) c).1).edges =
      insert (y, x, Interaction.hybridization)
        (insert (x, y, Interaction.hybridization) c.edges) ∧
    ((add_hybridization_edge pyhash dssp icid_f (x, y) c).1).icid_radius = c.icid_radius ∧
    ((add_hybridization_edge pyhash dssp icid_f (x, y) c).1).icid_use_instance =
      c.icid_use_instance ∧
    CachesOK pyhash dssp icid_f ((add_hybridization_edge pyhash dssp icid_f (x, y) c).1) := by
  obtain ⟨-, hcore0, hcache0⟩ := state_fingerprint_main pyhash dssp icid_f c hui hc
  have huiA2 : (reset_state_fingerprint
      (add_hybridization_edge_inner (x, y) (state_fingerprint pyhash dssp icid_f c).2)
      true true false).icid_use_instance = true := by
    show ((state_fingerprint pyhash dssp icid_f c).2).icid_use_instance = true
    exact hcore0.2.2.2.2.2.2.trans hui
  have hcacheA2 : CachesOK pyhash dssp icid_f (reset_state_fingerprint
      (add_hybridization_edge_inner (x, y) (state_fingerprint pyhash dssp icid_f c).2)
      true true false) := by
    refine ⟨?_, ?_, ?_, ?_⟩
    · intro v hv hne
      exact Option.noConfusion (show (none : Option ℕ) = some v from hv)
    · intro v hv hne
      exact Option.noConfusion (show (none : Option (Finset (String × ℕ))) = some v from hv)
    · intro v hv hne
      exact Option.noConfusion
        (show (none : Option (Finset (Finset (String × ℕ)))) = some v from hv)
    · intro v hv hne
      have hv0 : ((state_fingerprint pyhash dssp icid_f c).2).fp_stack = some v := hv
      have hval := hcache0.2.2.2 v hv0 hne
      exact hval.trans
        (stackFP_add_hyb_inner dssp icid_f (x, y)
          (state_fingerprint pyhash dssp icid_f c).2).symm
  obtain ⟨-, hcore2, hcache2⟩ := state_fingerprint_main pyhash dssp icid_f _ huiA2 hcacheA2
  refine ⟨?_, ?_, ?_, ?_, hcache2⟩
  · exact hcore2.1.trans hcore0.1
  · refine hcore2.2.2.1.trans ?_
    show insert (y, x, Interaction.hybridization)
        (insert (x, y, Interaction.hybridization)
          ((state_fingerprint pyhash dssp icid_f c).2).edges) = _
    rw [hcore0.2.2.1]
  · exact hcore2.2.2.2.2.2.1.trans hcore0.2.2.2.2.2.1
  · exact hcore2.2.2.2.2.2.2.trans hcore0.2.2.2.2.2.2

theorem remove_hyb_decorated_spec (x y : ℕ) (c : Cplx)
    (hui : c.icid_use_instance = true) (hc : CachesOK pyhash dssp icid_f c) :
    ((remove_hybridization_edge pyhash dssp icid_f (x, y) c).1).strands = c.strands ∧
    ((remove_hybridization_edge pyhash dssp icid_f (x, y) c).1).edges =
      (c.edges.erase (x, y, Interaction.hybridization)).erase
        (y, x, Interaction.hybridization) ∧
    ((remove_hybridization_edge pyhash dssp icid_f (x, y) c).1).icid_radius = c.icid_radius ∧
    ((remove_hybridization_edge pyhash dssp icid_f (x, y) c).1).icid_use_instance =
      c.icid_use_instance ∧
    CachesOK pyhash dssp icid_f ((remove_hybridization_edge pyhash dssp icid_f (x, y) c).1) := by
  obtain ⟨-, hcore0, hcache0⟩ := state_fingerprint_main pyhash dssp icid_f c hui hc
  have huiA2 : (reset_state_fingerprint
      (remove_hybridization_edge_inner (x, y) (state_fingerprint pyhash dssp icid_f c).2)
      true true false).icid_use_instance = true := by
    show ((state_fingerprint pyhash dssp icid_f c).2).icid_use_instance = true
    exact hcore0.2.2.2.2.2.2.trans hui
  have hcacheA2 : CachesOK pyhash dssp icid_f (reset_state_fingerprint
      (remove_hybridization_edge_inner (x, y) (state_fingerprint pyhash dssp icid_f c).2)
      true true false) := by
    refine ⟨?_, ?_, ?_, ?_⟩
    · intro v hv hne
      exact Option.noConfusion (show (none : Option ℕ) = some v from hv)
    · intro v hv hne
      exact Option.noConfusion (show (none : Option (Finset (String × ℕ))) = some v from hv)
    · intro v hv hne
      exact Option.noConfusion
        (show (none : Option (Finset (Finset (String × ℕ)))) = some v from hv)
    · intro v hv hne
      have hv0 : ((state_fingerprint pyhash dssp icid_f c).2).fp_stack = some v := hv
      have hval := hcache0.2.2.2 v hv0 hne
      exact hval.trans
        (stackFP_remove_hyb_inner dssp icid_f (x, y)
          (state_fingerprint pyhash dssp icid_f c).2).symm
  obtain ⟨-, hcore2, hcache2⟩ := state_fingerprint_main pyhash dssp icid_f _ huiA2 hcacheA2
  refine ⟨?_, ?_, ?_, ?_, hcache2⟩
  · exact hcore2.1.trans hcore0.1
  · refine hcore2.2.2.1.trans ?_
    show ((((state_fingerprint pyhash dssp icid_f c).2).edges.erase
        (x, y, Interaction.hybridization)).erase (y, x, Interaction.hybridization)) = _
    rw [hcore0.2.2.1]
  · exact hcore2.2.2.2.2.2.1.trans hcore0.2.2.2.2.2.1
  · exact hcore2.2.2.2.2.2.2.trans hcore0.2.2.2.2.2.2

/-- Claim C7 (confirmed): for a complex with consistent fingerprint caches
and instance-based icids (`icid_use_instance` is `True` from construction
onward), adding a hybridization edge for a pair of distinct domains not
currently hybridized and then removing that edge restores
`state_fingerprint()` to the value it had before the add. -/
theorem c7_add_remove_restores_fingerprint (c : Cplx) (a b : ℕ)
    (hui : c.icid_use_instance = true)
    (hc : CachesOK pyhash dssp icid_f c)
    (hab : a ≠ b)
    (he1 : (a, b, Interaction.hybridization) ∉ c.edges)
    (he2 : (b, a, Interaction.hybridization) ∉ c.edges)
    (hp : ({a, b} : Finset ℕ) ∉ c.hybridized_pairs) :
    (state_fingerprint pyhash dssp icid_f
      ((remove_hybridization_edge pyhash dssp icid_f (a, b)
        ((add_hybridization_edge pyhash dssp icid_f (a, b) c).1)).1)).1 =
    (state_fingerprint pyhash dssp icid_f c).1 := by
  obtain ⟨hCAs, hCAe, hCAr, hCAu, hCAcache⟩ :=
    add_hyb_decorated_spec pyhash dssp icid_f a b c hui hc
  have huiCA : ((add_hybridization_edge pyhash dssp icid_f (a, b) c).1).icid_use_instance =
      true := hCAu.trans hui
  obtain ⟨hCBs, hCBe, hCBr, hCBu, hCBcache⟩ :=
    remove_hyb_decorated_spec pyhash dssp icid_f a b
      ((add_hybridization_edge pyhash dssp icid_f (a, b) c).1) huiCA hCAcache
  have he12 : (b, a, Interaction.hybridization) ≠ (a, b, Interaction.hybridization) :=
    fun h => hab (congrArg Prod.fst h).symm
  have hedges : ((remove_hybridization_edge pyhash dssp icid_f (a, b)
      ((add_hybridization_edge pyhash dssp icid_f (a, b) c).1)).1).edges = c.edges := by
    rw [hCBe, hCAe, Finset.erase_insert_of_ne he12, Finset.erase_insert he1,
      Finset.erase_insert he2]
  have huiCB : ((remove_hybridization_edge pyhash dssp icid_f (a, b)
      ((add_hybridization_edge pyhash dssp icid_f (a, b) c).1)).1).icid_use_instance =
      true := hCBu.trans huiCA
  obtain ⟨hfin, -, -⟩ := state_fingerprint_main pyhash dssp icid_f
    ((remove_hybridization_edge pyhash dssp icid_f (a, b)
      ((add_hybridization_edge pyhash dssp icid_f (a, b) c).1)).1) huiCB hCBcache
  obtain ⟨hstart, -, -⟩ := state_fingerprint_main pyhash dssp icid_f c hui hc
  rw [hfin, hstart]
  exact pureFPVal_congr pyhash dssp icid_f (hCBs.trans hCAs) hedges
    (hCBr.trans hCAr) (hCBu.trans hCAu)

theorem mem_strands_species_count {F : Finset StrandInfo} {nm : String} {k : ℕ} :
    (nm, k) ∈ strands_species_count F ↔
      (∃ st ∈ F, st.name = nm) ∧ k = (F.filter (fun st => st.name = nm)).card := by
  unfold strands_species_count
  simp only [Finset.mem_image]
  constructor
  · rintro ⟨n2, hn2, heq⟩
    injection heq with hn hk
    subst hn
    exact ⟨hn2, hk.symm⟩
  · rintro ⟨⟨st, hst, hname⟩, rfl⟩
    exact ⟨nm, ⟨st, hst, hname⟩, rfl⟩

theorem strands_species_count_ne {F G : Finset StrandInfo} (nm : String)
    (h : (F.filter (fun st => st.name = nm)).card ≠
      (G.filter (fun st => st.name = nm)).card) :
    strands_species_count F ≠ strands_species_count G := by
  intro heq
  by_cases hF : ∃ st ∈ F, st.name = nm
  · have hmem : (nm, (F.filter (fun st => st.name = nm)).card) ∈
        strands_species_count F :=
      mem_strands_species_count.mpr ⟨hF, rfl⟩
    rw [heq] at hmem
    exact h (mem_strands_species_count.mp hmem).2
  · by_cases hG : ∃ st ∈ G, st.name = nm
    · have hmem : (nm, (G.filter (fun st => st.name = nm)).card) ∈
          strands_species_count G :=
        mem_strands_species_count.mpr ⟨hG, rfl⟩
      rw [← heq] at hmem
      exact h (mem_strands_species_count.mp hmem).2.symm
    · have hF0 : (F.filter (fun st => st.name = nm)).card = 0 := by
        rw [Finset.card_eq_zero, Finset.filter_eq_empty_iff]
        exact fun st hst hname => hF ⟨st, hst, hname⟩
      have hG0 : (G.filter (fun st => st.name = nm)).card = 0 := by
        rw [Finset.card_eq_zero, Finset.filter_eq_empty_iff]
        exact fun st hst hname => hG ⟨st, hst, hname⟩
      exact h (hF0.trans hG0.symm)

theorem domain_label_inj (c : Cplx) (hui : c.icid_use_instance = true) :
    ∀ x y : ℕ, domain_label dssp icid_f c x = domain_label dssp icid_f c y → x = y := by
  intro x y h
  unfold domain_label in_complex_identifier at h
  rw [hui] at h
  simpa using congrArg Prod.snd h

theorem pair_image_eq_iff {α β : Type} [DecidableEq β] {f : α → β}
    (hf : ∀ x y, f x = f y → x = y) (x y u v : α)
    (h : ({f x, f y} : Finset β) = {f u, f v}) :
    (x = u ∧ y = v) ∨ (x = v ∧ y = u) := by
  have ex : x = u ∨ x = v := by
    have hx : f x ∈ ({f u, f v} : Finset β) := by rw [← h]; simp
    rcases Finset.mem_insert.mp hx with h1 | h1
    · exact Or.inl (hf _ _ h1)
    · exact Or.inr (hf _ _ (Finset.mem_singleton.mp h1))
  have ey : y = u ∨ y = v := by
    have hy : f y ∈ ({f u, f v} : Finset β) := by rw [← h]; simp
    rcases Finset.mem_insert.mp hy with h1 | h1
    · exact Or.inl (hf _ _ h1)
    · exact Or.inr (hf _ _ (Finset.mem_singleton.mp h1))
  have eu : u = x ∨ u = y := by
    have hu : f u ∈ ({f x, f y} : Finset β) := by rw [h]; simp
    rcases Finset.mem_insert.mp hu with h1 | h1
    · exact Or.inl (hf _ _ h1)
    · exact Or.inr (hf _ _ (Finset.mem_singleton.mp h1))
  have ev : v = x ∨ v = y := by
    have hv : f v ∈ ({f x, f y} : Finset β) := by rw [h]; simp
    rcases Finset.mem_insert.mp hv with h1 | h1
    · exact Or.inl (hf _ _ h1)
    · exact Or.inr (hf _ _ (Finset.mem_singleton.mp h1))
  rcases ex with h1 | h1 <;> rcases ey with h2 | h2
  · rcases ev with h3 | h3
    · exact Or.inr ⟨h3.symm, h2⟩
    · exact Or.inl ⟨h1, h3.symm⟩
  · exact Or.inl ⟨h1, h2⟩
  · exact Or.inr ⟨h1, h2⟩
  · rcases eu with h3 | h3
    · exact Or.inl ⟨h3.symm, h2⟩
    · exact Or.inr ⟨h1, h3.symm⟩

theorem hybFP_add_inner_ne (c : Cplx) (a b : ℕ) (hui : c.icid_use_instance = true)
    (h1 : (a, b, Interaction.hybridization) ∉ c.edges)
    (h2 : (b, a, Interaction.hybridization) ∉ c.edges) :
    hybFP dssp icid_f (add_hybridization_edge_inner (a, b) c) ≠ hybFP dssp icid_f c := by
  intro heq
  have hmem : ({domain_label dssp icid_f c a, domain_label dssp icid_f c b} :
      Finset (String × ℕ)) ∈ hybFP dssp icid_f (add_hybridization_edge_inner (a, b) c) := by
    unfold hybFP hybridization_edges
    refine Finset.mem_image.mpr ⟨(a, b, Interaction.hybridization), ?_, rfl⟩
    refine Finset.mem_filter.mpr ⟨?_, rfl⟩
    show (a, b, Interaction.hybridization) ∈
      insert (b, a, Interaction.hybridization)
        (insert (a, b, Interaction.hybridization) c.edges)
    exact Finset.mem_insert.mpr (Or.inr (Finset.mem_insert_self _ _))
  rw [heq] at hmem
  unfold hybFP hybridization_edges at hmem
  obtain ⟨e, hef, himg⟩ := Finset.mem_image.mp hmem
  obtain ⟨hee, hkey⟩ := Finset.mem_filter.mp hef
  obtain ⟨x, y, k⟩ := e
  have hk : k = Interaction.hybridization := hkey
  subst hk
  rcases pair_image_eq_iff (domain_label_inj dssp icid_f c hui) x y a b himg with
    ⟨rfl, rfl⟩ | ⟨rfl, rfl⟩
  · exact h1 hee
  · exact h2 hee

theorem hybFP_remove_inner_ne (c : Cplx) (a b : ℕ) (hui : c.icid_use_instance = true)
    (h1 : (a, b, Interaction.hybridization) ∈ c.edges) :
    hybFP dssp icid_f (remove_hybridization_edge_inner (a, b) c) ≠ hybFP dssp icid_f c := by
  intro heq
  have hmem : ({domain_label dssp icid_f c a, domain_label dssp icid_f c b} :
      Finset (String × ℕ)) ∈ hybFP dssp icid_f c := by
    unfold hybFP hybridization_edges
    exact Finset.mem_image.mpr ⟨(a, b, Interaction.hybridization),
      Finset.mem_filter.mpr ⟨h1, rfl⟩, rfl⟩
  rw [← heq] at hmem
  unfold hybFP hybridization_edges at hmem
  obtain ⟨e, hef, himg⟩ := Finset.mem_image.mp hmem
  obtain ⟨hee, hkey⟩ := Finset.mem_filter.mp hef
  have hee' : e ∈ (c.edges.erase (a, b, Interaction.hybridization)).erase
      (b, a, Interaction.hybridization) := hee
  obtain ⟨hne2, hee2⟩ := Finset.mem_erase.mp hee'
  obtain ⟨hne1, -⟩ := Finset.mem_erase.mp hee2
  obtain ⟨x, y, k⟩ := e
  have hk : k = Interaction.hybridization := hkey
  subst hk
  rcases pair_image_eq_iff (domain_label_inj dssp icid_f c hui) x y a b himg with
    ⟨rfl, rfl⟩ | ⟨rfl, rfl⟩
  · exact hne1 rfl
  · exact hne2 rfl

theorem stackFP_add_inner_ne (c : Cplx) (a b d e : ℕ)
    (hui : c.icid_use_instance = true)
    (h1 : (a, e, Interaction.stacking) ∉ c.edges) :
    stackFP dssp icid_f (add_stacking_edge_inner ((a, b), (d, e)) c) ≠
      stackFP dssp icid_f c := by
  intro heq
  have hmem : (domain_label dssp icid_f c a, domain_label dssp icid_f c e) ∈
      stackFP dssp icid_f (add_stacking_edge_inner ((a, b), (d, e)) c) := by
    unfold stackFP stacking_edges
    refine Finset.mem_image.mpr ⟨(a, e, Interaction.stacking), ?_, rfl⟩
    refine Finset.mem_filter.mpr ⟨?_, rfl⟩
    show (a, e, Interaction.stacking) ∈
      insert (d, b, Interaction.stacking) (insert (a, e, Interaction.stacking) c.edges)
    exact Finset.mem_insert.mpr (Or.inr (Finset.mem_insert_self _ _))
  rw [heq] at hmem
  unfold stackFP stacking_edges at hmem
  obtain ⟨e2, hef, himg⟩ := Finset.mem_image.mp hmem
  obtain ⟨hee, hkey⟩ := Finset.mem_filter.mp hef
  obtain ⟨x, y, k⟩ := e2
  have hk : k = Interaction.stacking := hkey
  subst hk
  injection himg with himg1 himg2
  obtain rfl := domain_label_inj dssp icid_f c hui x a himg1
  obtain rfl := domain_label_inj dssp icid_f c hui y e himg2
  exact h1 hee

theorem stackFP_remove_inner_ne (c : Cplx) (a b d e : ℕ)
    (hui : c.icid_use_instance = true)
    (h1 : (a, e, Interaction.stacking) ∈ c.edges) :
    stackFP dssp icid_f (remove_stacking_edge_inner ((a, b), (d, e)) c) ≠
      stackFP dssp icid_f c := by
  intro heq
  have hmem : (domain_label dssp icid_f c a, domain_label dssp icid_f c e) ∈
      stackFP dssp icid_f c := by
    unfold stackFP stacking_edges
    exact Finset.mem_image.mpr ⟨(a, e, Interaction.stacking),
      Finset.mem_filter.mpr ⟨h1, rfl⟩, rfl⟩
  rw [← heq] at hmem
  unfold stackFP stacking_edges at hmem
  obtain ⟨e2, hef, himg⟩ := Finset.mem_image.mp hmem
  obtain ⟨hee, hkey⟩ := Finset.mem_filter.mp hef
  have hee' : e2 ∈ (c.edges.erase (a, e, Interaction.stacking)).erase
      (d, b, Interaction.stacking) := hee
  obtain ⟨-, hee2⟩ := Finset.mem_erase.mp hee'
  obtain ⟨hne1, -⟩ := Finset.mem_erase.mp hee2
  obtain ⟨x, y, k⟩ := e2
  have hk : k = Interaction.stacking := hkey
  subst hk
  injection himg with himg1 himg2
  obtain rfl := domain_label_inj dssp icid_f c hui x a himg1
  obtain rfl := domain_label_inj dssp icid_f c hui y e himg2
  exact hne1 rfl

end ComplexProofs

theorem add_strand_inner_strands (st : StrandInfo) (ug : Bool) (c : Cplx) :
    (add_strand_inner st ug c).strands = insert st c.strands := by
  unfold add_strand_inner reset_state_fingerprint
  cases ug <;> rfl

theorem remove_strand_inner_strands (st : StrandInfo) (ug uep : Bool) (c : Cplx) :
    (remove_strand_inner st ug uep c).strands = c.strands.erase st := by
  unfold remove_strand_inner
  cases ug <;> cases uep <;> rfl

theorem add_strands_inner_strands (sts : Finset StrandInfo) (ug : Bool) (c : Cplx) :
    (add_strands_inner sts ug c).strands = c.strands ∪ sts := by
  unfold add_strands_inner
  cases ug <;> rfl

theorem remove_strands_inner_strands (sts : Finset StrandInfo) (ug uep : Bool) (c : Cplx) :
    (remove_strands_inner sts ug uep c).strands = c.strands \ sts := by
  unfold remove_strands_inner
  cases ug <;> cases uep <;> rfl

/-- Witness for `c7_add_remove_restores_fingerprint` on `demoComplex` with
the pair `(0, 1)` and concrete hash and label functions. -/
theorem c7_add_remove_restores_fingerprint_witness :
    (state_fingerprint (fun _ => 7) (fun _ => "d") (fun _ _ => 0)
      ((remove_hybridization_edge (fun _ => 7) (fun _ => "d") (fun _ _ => 0) (0, 1)
        ((add_hybridization_edge (fun _ => 7) (fun _ => "d") (fun _ _ => 0) (0, 1)
          demoComplex).1)).1)).1 =
    (state_fingerprint (fun _ => 7) (fun _ => "d") (fun _ _ => 0) demoComplex).1 :=
  c7_add_remove_restores_fingerprint (fun _ => 7) (fun _ => "d") (fun _ _ => 0)
    demoComplex 0 1 rfl
    (by
      unfold CachesOK
      refine ⟨?_, ?_, ?_, ?_⟩ <;> exact fun _ hv _ => nomatch hv)
    (by decide) (by decide) (by decide) (by decide)

/-- Claim C8 counterexample: the assertion of `state_should_change` is on
`hash(triple) % 100000`, not on the triple itself, so a hash with
collisions makes it fail even for a state-changing call: with the constant
hash, adding the hybridization edge `(0, 1)` to `demoComplex` is a valid,
state-changing mutator invocation, yet the asserted inequality of the two
`state_fingerprint()` values is false. -/
theorem c8_assert_fails_on_hash_collision :
    mutatorOK (Mutator.addHybridizationEdge (0, 1)) demoComplex ∧
    (add_hybridization_edge (fun _ => 0) (fun _ => "d") (fun _ _ => 0) (0, 1)
      demoComplex).2 = false := by
  constructor
  · unfold mutatorOK
    exact ⟨by decide, by decide, by decide⟩
  · rfl

/-- Claim C8, amended: every valid, state-changing invocation of one of
the eight decorated mutators changes the canonical fingerprint *triple*
(strands, hybridization and stacking fingerprints); the asserted
`state_fingerprint` values are that triple hashed and reduced mod 100000,
so the assertion holds exactly when the hash does not collide on the two
triples (and can fail under a colliding hash, as the counterexample
shows).  Stated for complexes in the instance-icid regime, which the
constructor establishes and no mutator leaves. -/
theorem c8_mutators_change_fingerprint_triple
    (dssp : ℕ → String) (icid_f : ℕ → ℕ → ℕ) (m : Mutator) (c : Cplx)
    (hui : c.icid_use_instance = true) (hok : mutatorOK m c) :
    fingerprint_triple dssp icid_f (applyMutatorInner m c) ≠
      fingerprint_triple dssp icid_f c := by
  cases m with
  | addStrand st ug =>
    have hok' : st ∉ c.strands := hok
    intro heq
    have h1 := congrArg Prod.fst heq
    have h3 : strandsFP (applyMutatorInner (Mutator.addStrand st ug) c) =
        strands_species_count (insert st c.strands) := by
      unfold strandsFP applyMutatorInner
      rw [add_strand_inner_strands]
    have h2 : strands_species_count (insert st c.strands) =
        strands_species_count c.strands := h3.symm.trans h1
    refine strands_species_count_ne st.name ?_ h2
    rw [Finset.filter_insert, if_pos rfl, Finset.card_insert_of_not_mem
      (fun hmem2 => hok' ((Finset.mem_filter.mp hmem2).1))]
    omega
  | removeStrand st ug uep =>
    have hok' : st ∈ c.strands := hok
    intro heq
    have h1 := congrArg Prod.fst heq
    have h3 : strandsFP (applyMutatorInner (Mutator.removeStrand st ug uep) c) =
        strands_species_count (c.strands.erase st) := by
      unfold strandsFP applyMutatorInner
      rw [remove_strand_inner_strands]
    have h2 : strands_species_count (c.strands.erase st) =
        strands_species_count c.strands := h3.symm.trans h1
    refine strands_species_count_ne st.name ?_ h2
    have hmem : st ∈ c.strands.filter (fun s2 => s2.name = st.name) :=
      Finset.mem_filter.mpr ⟨hok', rfl⟩
    have hpos : 0 < (c.strands.filter (fun s2 => s2.name = st.name)).card :=
      Finset.card_pos.mpr ⟨st, hmem⟩
    rw [Finset.filter_erase, Finset.card_erase_of_mem hmem]
    omega
  | addStrands sts ug =>
    have hok' : sts.Nonempty ∧ Disjoint sts c.strands := hok
    obtain ⟨⟨s, hs⟩, hdisj⟩ := hok'
    intro heq
    have h1 := congrArg Prod.fst heq
    have h3 : strandsFP (applyMutatorInner (Mutator.addStrands sts ug) c) =
        strands_species_count (c.strands ∪ sts) := by
      unfold strandsFP applyMutatorInner
      rw [add_strands_inner_strands]
    have h2 : strands_species_count (c.strands ∪ sts) =
        strands_species_count c.strands := h3.symm.trans h1
    refine strands_species_count_ne s.name ?_ h2
    have hspos : 0 < (sts.filter (fun s2 => s2.name = s.name)).card :=
      Finset.card_pos.mpr ⟨s, Finset.mem_filter.mpr ⟨hs, rfl⟩⟩
    rw [Finset.filter_union, Finset.card_union_of_disjoint
      (Finset.disjoint_filter_filter hdisj.symm)]
    omega
  | removeStrands sts ug uep =>
    have hok' : sts.Nonempty ∧ sts ⊆ c.strands := hok
    obtain ⟨⟨s, hs⟩, hsub⟩ := hok'
    intro heq
    have h1 := congrArg Prod.fst heq
    have h3 : strandsFP (applyMutatorInner (Mutator.removeStrands sts ug uep) c) =
        strands_species_count (c.strands \ sts) := by
      unfold strandsFP applyMutatorInner
      rw [remove_strands_inner_strands]
    have h2 : strands_species_count (c.strands \ sts) =
        strands_species_count c.strands := h3.symm.trans h1
    refine strands_species_count_ne s.name ?_ h2
    have hfsub : sts.filter (fun s2 => s2.name = s.name) ⊆
        c.strands.filter (fun s2 => s2.name = s.name) :=
      Finset.filter_subset_filter _ hsub
    have hfilter : (c.strands \ sts).filter (fun s2 => s2.name = s.name) =
        c.strands.filter (fun s2 => s2.name = s.name) \
          sts.filter (fun s2 => s2.name = s.name) := by
      ext x
      simp only [Finset.mem_filter, Finset.mem_sdiff]
      tauto
    have hspos : 0 < (sts.filter (fun s2 => s2.name = s.name)).card :=
      Finset.card_pos.mpr ⟨s, Finset.mem_filter.mpr ⟨hs, rfl⟩⟩
    have hle := Finset.card_le_card hfsub
    rw [hfilter, Finset.card_sdiff hfsub]
    omega
  | addHybridizationEdge p =>
    obtain ⟨x, y⟩ := p
    have hok' : (x, y, Interaction.hybridization) ∉ c.edges ∧
        (y, x, Interaction.hybridization) ∉ c.edges ∧
        ({x, y} : Finset ℕ) ∉ c.hybridized_pairs := hok
    intro heq
    exact hybFP_add_inner_ne dssp icid_f c x y hui hok'.1 hok'.2.1
      (congrArg (fun t => t.2.1) heq)
  | removeHybridizationEdge p =>
    obtain ⟨x, y⟩ := p
    have hok' : (x, y, Interaction.hybridization) ∈ c.edges ∧
        (y, x, Interaction.hybridization) ∈ c.edges ∧
        ({x, y} : Finset ℕ) ∈ c.hybridized_pairs := hok
    intro heq
    exact hybFP_remove_inner_ne dssp icid_f c x y hui hok'.1
      (congrArg (fun t => t.2.1) heq)
  | addStackingEdge sp =>
    obtain ⟨⟨a, b⟩, d, e⟩ := sp
    have hok' : (a, e, Interaction.stacking) ∉ c.edges ∧
        (d, b, Interaction.stacking) ∉ c.edges ∧
        (a, e) ∉ c.stacked_pairs ∧ (d, b) ∉ c.stacked_pairs := hok
    intro heq
    exact stackFP_add_inner_ne dssp icid_f c a b d e hui hok'.1
      (congrArg (fun t => t.2.2) heq)
  | removeStackingEdge sp =>
    obtain ⟨⟨a, b⟩, d, e⟩ := sp
    have hok' : (a, e, Interaction.stacking) ∈ c.edges ∧
        (d, b, Interaction.stacking) ∈ c.edges ∧
        (a, e) ∈ c.stacked_pairs ∧ (d, b) ∈ c.stacked_pairs := hok
    intro heq
    exact stackFP_remove_inner_ne dssp icid_f c a b d e hui hok'.1
      (congrArg (fun t => t.2.2) heq)

/-- Witness for `c8_mutators_change_fingerprint_triple` at the mutator
that adds the hybridization edge `(0, 1)` to `demoComplex`. -/
theorem c8_mutators_change_fingerprint_triple_witness :
    mutatorOK (Mutator.addHybridizationEdge (0, 1)) demoComplex ∧
    fingerprint_triple (fun _ => "d") (fun _ _ => 0)
      (applyMutatorInner (Mutator.addHybridizationEdge (0, 1)) demoComplex) ≠
    fingerprint_triple (fun _ => "d") (fun _ _ => 0) demoComplex :=
  by
  constructor
  · unfold mutatorOK
    exact ⟨by decide, by decide, by decide⟩
  · exact c8_mutators_change_fingerprint_triple (fun _ => "d") (fun _ _ => 0)
      (Mutator.addHybridizationEdge (0, 1)) demoComplex rfl
      (by unfold mutatorOK; exact ⟨by decide, by decide, by decide⟩)
